import Mathlib

/-!
Shallow embedding of the spot-exchange trading core
(`src/trading/models.py`, `src/trading/services.py`).

Conventions of the embedding:
* `Decimal` values are modelled by `ℚ` (the source only adds, subtracts,
  multiplies and compares, all exact on decimals).
* Database rows live in lists inside `ExchangeState`; a row lookup
  (`objects.get` / `objects.filter(...).first()`) is `List.find?` and a row
  update (`obj.save()`) rewrites the first matching row (`updateFirst`),
  which agrees with the unique-key constraints of the schema.
* Python exceptions are `Except Err`; a `@transaction.atomic` public entry
  point that raises rolls back, so the `run_*` wrappers return the original
  state on error.
* `st.trades` is a ghost log of executed trades (the source only logs them);
  no operation reads it, it exists so that theorems can speak about the
  trade history.
-/

/-- `TradingPair` row (`models.py`): a symbol with base and quote currencies
and an activity flag. -/
structure TradingPair where
  symbol : String
  base_currency : String
  quote_currency : String
  is_active : Bool
deriving DecidableEq, Repr

/-- `Wallet` row (`models.py`): per (user, currency) balances. -/
structure Wallet where
  user_id : Nat
  currency : String
  balance : ℚ
  locked_balance : ℚ
deriving DecidableEq, Repr

/-- `Wallet.available_balance` property. -/
def Wallet.available_balance (w : Wallet) : ℚ :=
  w.balance - w.locked_balance

/-- `Order` row (`models.py`).  `side`, `order_type` and `status` are the
literal strings the source stores; `created_at` is a timestamp drawn from the
monotonic clock of the state. -/
structure Order where
  id : Nat
  user_id : Nat
  pair : TradingPair
  side : String
  order_type : String
  price : ℚ
  amount : ℚ
  filled_amount : ℚ
  status : String
  created_at : Nat
deriving DecidableEq, Repr

/-- The exceptions of `services.py` (`InsufficientBalanceError`,
`InvalidOrderError`, `WalletNotFoundError`, python `ValueError`, and django
`DoesNotExist`).  Interpolated numbers in python `ValueError` messages are
elided; the claims never inspect them. -/
inductive Err where
  | insufficientBalance (required available : ℚ) (currency : String)
  | invalidOrder (reason : String)
  | walletNotFound (user_id : Nat) (currency : String)
  | valueError (reason : String)
  | doesNotExist
deriving DecidableEq, Repr

deriving instance DecidableEq for Except

/-- Ghost record of one executed trade: the parties, the currencies of the
pair, the traded base quantity, the executed (maker) price, and the buy-side
order's limit price. -/
structure Trade where
  buyer_id : Nat
  seller_id : Nat
  base_currency : String
  quote_currency : String
  qty : ℚ
  price : ℚ
  buy_price : ℚ
deriving DecidableEq, Repr

/-- The persistent store: wallet rows, order rows, the order-id sequence, the
clock supplying `created_at`, and the ghost trade log. -/
structure ExchangeState where
  wallets : List Wallet
  orders : List Order
  next_order_id : Nat
  clock : Nat
  trades : List Trade
deriving DecidableEq, Repr

/-- Key predicate of the `UNIQUE(user_id, currency)` wallet constraint. -/
def walletKey (u : Nat) (c : String) (w : Wallet) : Bool :=
  w.user_id == u && w.currency == c

/-- Rewrite the first element satisfying `p` (a row `UPDATE` keyed by a
unique constraint). -/
def updateFirst (p : α → Bool) (f : α → α) : List α → List α
  | [] => []
  | x :: xs => if p x then f x :: xs else x :: updateFirst p f xs

/-- Update the unique wallet row of `(u, c)`, if present. -/
def modifyWallet (st : ExchangeState) (u : Nat) (c : String)
    (f : Wallet → Wallet) : ExchangeState :=
  { st with wallets := updateFirst (walletKey u c) f st.wallets }

/-- `WalletService.get_or_create_wallet`: currency normalised to upper case;
creates a zero wallet when absent. -/
def get_or_create_wallet (st : ExchangeState) (u : Nat) (c : String) :
    ExchangeState × Wallet :=
  match st.wallets.find? (walletKey u c.toUpper) with
  | some w => (st, w)
  | none =>
    let w : Wallet := ⟨u, c.toUpper, 0, 0⟩
    ({ st with wallets := st.wallets ++ [w] }, w)

/-- `WalletService.get_wallet`: raises `WalletNotFoundError` when absent. -/
def get_wallet (st : ExchangeState) (u : Nat) (c : String) : Except Err Wallet :=
  match st.wallets.find? (walletKey u c.toUpper) with
  | some w => .ok w
  | none => .error (.walletNotFound u c)

/-- `WalletService.deposit`. -/
def deposit (st : ExchangeState) (u : Nat) (c : String) (amount : ℚ) :
    Except Err (ExchangeState × Wallet) :=
  if amount ≤ 0 then .error (.valueError "Deposit amount must be positive")
  else
    let p := get_or_create_wallet st u c
    let st₁ := modifyWallet p.1 u c.toUpper
      (fun w => { w with balance := w.balance + amount })
    .ok (st₁, { p.2 with balance := p.2.balance + amount })

/-- `WalletService.withdraw`. -/
def withdraw (st : ExchangeState) (u : Nat) (c : String) (amount : ℚ) :
    Except Err (ExchangeState × Wallet) :=
  if amount ≤ 0 then .error (.valueError "Withdrawal amount must be positive")
  else
    match st.wallets.find? (walletKey u c.toUpper) with
    | none => .error .doesNotExist
    | some w =>
      if w.available_balance < amount then
        .error (.insufficientBalance amount w.available_balance c)
      else
        .ok (modifyWallet st u c.toUpper
              (fun w => { w with balance := w.balance - amount }),
            { w with balance := w.balance - amount })

/-- `WalletService.lock_balance`: reserve balance for a pending order. -/
def lock_balance (st : ExchangeState) (u : Nat) (c : String) (amount : ℚ) :
    Except Err (ExchangeState × Wallet) :=
  if amount ≤ 0 then .error (.valueError "Lock amount must be positive")
  else
    match st.wallets.find? (walletKey u c.toUpper) with
    | none => .error .doesNotExist
    | some w =>
      if w.available_balance < amount then
        .error (.insufficientBalance amount w.available_balance c)
      else
        .ok (modifyWallet st u c.toUpper
              (fun w => { w with locked_balance := w.locked_balance + amount }),
            { w with locked_balance := w.locked_balance + amount })

/-- `WalletService.unlock_balance`: release reserved balance on cancel. -/
def unlock_balance (st : ExchangeState) (u : Nat) (c : String) (amount : ℚ) :
    Except Err (ExchangeState × Wallet) :=
  if amount ≤ 0 then .error (.valueError "Unlock amount must be positive")
  else
    match st.wallets.find? (walletKey u c.toUpper) with
    | none => .error .doesNotExist
    | some w =>
      if w.locked_balance < amount then
        .error (.valueError "Cannot unlock more than locked")
      else
        .ok (modifyWallet st u c.toUpper
              (fun w => { w with locked_balance := w.locked_balance - amount }),
            { w with locked_balance := w.locked_balance - amount })

/-- `WalletService.transfer_locked`: the settlement primitive; moves `amount`
out of the sender's locked balance (and balance) into the receiver's balance,
creating the receiver's wallet when absent.  The source returns the two
wallets; its callers discard them, so the embedding returns the state. -/
def transfer_locked (st : ExchangeState) (from_user to_user : Nat) (c : String)
    (amount : ℚ) : Except Err ExchangeState :=
  if amount ≤ 0 then .error (.valueError "Transfer amount must be positive")
  else
    match st.wallets.find? (walletKey from_user c.toUpper) with
    | none => .error .doesNotExist
    | some fw =>
      if fw.locked_balance < amount then
        .error (.valueError "Cannot transfer more than locked")
      else
        let st₁ := modifyWallet st from_user c.toUpper
          (fun w => { w with locked_balance := w.locked_balance - amount,
                             balance := w.balance - amount })
        let st₂ := (get_or_create_wallet st₁ to_user c).1
        .ok (modifyWallet st₂ to_user c.toUpper
              (fun w => { w with balance := w.balance + amount }))

/-- `OrderValidationService.MIN_ORDER_VALUE`. -/
def MIN_ORDER_VALUE : ℚ := 10

/-- `OrderValidationService.MAX_ORDER_VALUE`. -/
def MAX_ORDER_VALUE : ℚ := 1000000

/-- `OrderValidationService.validate`, with the source's check order. -/
def validate (st : ExchangeState) (u : Nat) (pair : TradingPair)
    (side order_type : String) (price amount : ℚ) : Except Err Unit :=
  if ¬pair.is_active then .error (.invalidOrder "pair is inactive")
  else if ¬(side = "BUY" ∨ side = "SELL") then .error (.invalidOrder "Invalid side")
  else if ¬(order_type = "LIMIT" ∨ order_type = "MARKET") then
    .error (.invalidOrder "Invalid type")
  else if order_type = "LIMIT" ∧ price ≤ 0 then
    .error (.invalidOrder "Price must be positive")
  else if amount ≤ 0 then .error (.invalidOrder "Amount must be positive")
  else
    let order_value := price * amount
    if order_value < MIN_ORDER_VALUE then
      .error (.invalidOrder "Min order value")
    else if order_value > MAX_ORDER_VALUE then
      .error (.invalidOrder "Max order value")
    else
      let required := if side = "BUY" then price * amount else amount
      let currency := if side = "BUY" then pair.quote_currency else pair.base_currency
      let available := match get_wallet st u currency with
        | .ok w => w.available_balance
        | .error _ => 0
      if available < required then
        .error (.insufficientBalance required available currency)
      else .ok ()

/-- Non-strict key order of `order_by('price', 'created_at')` for a BUY
taker: price ascending, then `created_at` ascending. -/
def buyLe (a b : Order) : Prop :=
  a.price < b.price ∨ (a.price = b.price ∧ a.created_at ≤ b.created_at)

/-- Non-strict key order of `order_by('-price', 'created_at')` for a SELL
taker: price descending, then `created_at` ascending. -/
def sellLe (a b : Order) : Prop :=
  b.price < a.price ∨ (a.price = b.price ∧ a.created_at ≤ b.created_at)

instance : DecidableRel buyLe := fun a b => by
  unfold buyLe; exact inferInstance

instance : DecidableRel sellLe := fun a b => by
  unfold sellLe; exact inferInstance

/-- `OrderMatchingService.find_matches`: the OPEN opposite-side orders of the
pair that cross the taker's price, in best-price-first order.  The stored row
list is kept in primary-key order and the query's sort is modelled by the
stable `insertionSort` on the `order_by` keys. -/
def find_matches (st : ExchangeState) (o : Order) : List Order :=
  let opposite := if o.side = "BUY" then "SELL" else "BUY"
  let base := st.orders.filter fun m =>
    m.pair.symbol == o.pair.symbol && m.side == opposite && m.status == "OPEN"
  if o.side = "BUY" then
    (base.filter fun m => decide (m.price ≤ o.price)).insertionSort buyLe
  else
    (base.filter fun m => decide (o.price ≤ m.price)).insertionSort sellLe

/-- Buyer of a (taker, maker) match, as computed by `execute_match`. -/
def buyerOf (taker maker : Order) : Nat :=
  if taker.side = "BUY" then taker.user_id else maker.user_id

/-- Seller of a (taker, maker) match, as computed by `execute_match`. -/
def sellerOf (taker maker : Order) : Nat :=
  if taker.side = "BUY" then maker.user_id else taker.user_id

/-- The buy-side order's limit price of a (taker, maker) match. -/
def buyPriceOf (taker maker : Order) : ℚ :=
  if taker.side = "BUY" then taker.price else maker.price

/-- The fill update `execute_match` applies to each matched order: add `qty`
to `filled_amount` and set status `FILLED` once the amount is reached. -/
def fillUpd (o : Order) (qty : ℚ) : Order :=
  if o.amount ≤ o.filled_amount + qty then
    { o with filled_amount := o.filled_amount + qty, status := "FILLED" }
  else
    { o with filled_amount := o.filled_amount + qty }

/-- `OrderMatchingService.execute_match`: settle `qty` between taker and
maker at the maker's price, update both orders' fills and statuses, and save
them.  Also appends the ghost trade record. -/
def execute_match (st : ExchangeState) (taker maker : Order) (qty : ℚ) :
    Except Err (ExchangeState × Order × Order) :=
  let price := maker.price
  let value := price * qty
  let buyer := buyerOf taker maker
  let seller := sellerOf taker maker
  match transfer_locked st seller buyer taker.pair.base_currency qty with
  | .error e => .error e
  | .ok st₁ =>
    match transfer_locked st₁ buyer seller taker.pair.quote_currency value with
    | .error e => .error e
    | .ok st₂ =>
      let taker₂ := fillUpd taker qty
      let maker₂ := fillUpd maker qty
      let st₃ := { st₂ with
        orders := updateFirst (fun r => r.id == maker.id) (fun _ => maker₂)
          (updateFirst (fun r => r.id == taker.id) (fun _ => taker₂) st₂.orders),
        trades := st₂.trades ++
          [⟨buyer, seller, taker.pair.base_currency, taker.pair.quote_currency,
            qty, price, buyPriceOf taker maker⟩] }
      .ok (st₃, taker₂, maker₂)

/-- The maker loop of `OrderMatchingService.match_order`, carrying the
in-memory taker row exactly as the source mutates it. -/
def match_loop (st : ExchangeState) (taker : Order) :
    List Order → Nat → Except Err (ExchangeState × Order × Nat)
  | [], trades => .ok (st, taker, trades)
  | maker :: rest, trades =>
    let taker_remaining := taker.amount - taker.filled_amount
    let maker_remaining := maker.amount - maker.filled_amount
    if taker_remaining ≤ 0 then .ok (st, taker, trades)
    else
      match execute_match st taker maker (min taker_remaining maker_remaining) with
      | .error e => .error e
      | .ok r => match_loop r.1 r.2.1 rest (trades + 1)

/-- `OrderMatchingService.match_order`: fetch the candidates once and fold
over them; returns the final state, the refreshed taker and the trade
count. -/
def match_order (st : ExchangeState) (o : Order) :
    Except Err (ExchangeState × Order × Nat) :=
  match_loop st o (find_matches st o) 0

/-- `OrderService.place_order`: validate, lock, insert the OPEN order, then
match.  Runs inside one transaction (see `run_place_order`). -/
def place_order (st : ExchangeState) (u : Nat) (pair : TradingPair)
    (side order_type : String) (price amount : ℚ) :
    Except Err (ExchangeState × Order) :=
  match validate st u pair side order_type price amount with
  | .error e => .error e
  | .ok _ =>
    match (if side = "BUY" then
        lock_balance st u pair.quote_currency (price * amount)
      else
        lock_balance st u pair.base_currency amount) with
    | .error e => .error e
    | .ok locked =>
      let st₁ := locked.1
      let order : Order :=
        ⟨st₁.next_order_id, u, pair, side, order_type, price, amount, 0, "OPEN",
          st₁.clock⟩
      let st₂ := { st₁ with orders := st₁.orders ++ [order],
                            next_order_id := st₁.next_order_id + 1,
                            clock := st₁.clock + 1 }
      match match_order st₂ order with
      | .error e => .error e
      | .ok r => .ok (r.1, r.2.1)

/-- `OrderService.cancel_order`: owner and status checks, unlock of the
unfilled reservation, then status `CANCELLED`. -/
def cancel_order (st : ExchangeState) (u : Nat) (order_id : Nat) :
    Except Err (ExchangeState × Order) :=
  match st.orders.find? (fun o => o.id == order_id) with
  | none => .error .doesNotExist
  | some order =>
    if order.user_id ≠ u then .error (.invalidOrder "Not your order")
    else if ¬(order.status = "PENDING" ∨ order.status = "OPEN") then
      .error (.invalidOrder "Cannot cancel order in this status")
    else
      let unfilled := order.amount - order.filled_amount
      let step : Except Err ExchangeState :=
        if 0 < unfilled then
          match (if order.side = "BUY" then
              unlock_balance st u order.pair.quote_currency (order.price * unfilled)
            else
              unlock_balance st u order.pair.base_currency unfilled) with
          | .error e => .error e
          | .ok r => .ok r.1
        else .ok st
      match step with
      | .error e => .error e
      | .ok st₁ =>
        let order' := { order with status := "CANCELLED" }
        let st₂ := { st₁ with
          orders := updateFirst (fun o => o.id == order_id) (fun _ => order') st₁.orders }
        .ok (st₂, order')

/-- Transactional wrapper of `place_order`: on any raised error the whole
transaction rolls back and the state is unchanged. -/
def run_place_order (st : ExchangeState) (u : Nat) (pair : TradingPair)
    (side order_type : String) (price amount : ℚ) :
    ExchangeState × Except Err Order :=
  match place_order st u pair side order_type price amount with
  | .ok (st', o) => (st', .ok o)
  | .error e => (st, .error e)

/-- Transactional wrapper of `cancel_order`. -/
def run_cancel_order (st : ExchangeState) (u : Nat) (order_id : Nat) :
    ExchangeState × Except Err Order :=
  match cancel_order st u order_id with
  | .ok (st', o) => (st', .ok o)
  | .error e => (st, .error e)

/-- Transactional wrapper of `deposit`. -/
def run_deposit (st : ExchangeState) (u : Nat) (c : String) (amount : ℚ) :
    ExchangeState × Except Err Wallet :=
  match deposit st u c amount with
  | .ok (st', w) => (st', .ok w)
  | .error e => (st, .error e)

/-- Transactional wrapper of `withdraw`. -/
def run_withdraw (st : ExchangeState) (u : Nat) (c : String) (amount : ℚ) :
    ExchangeState × Except Err Wallet :=
  match withdraw st u c amount with
  | .ok (st', w) => (st', .ok w)
  | .error e => (st, .error e)

/-- One public trading operation (`place_order` or `cancel_order`). -/
inductive Op where
  | place (u : Nat) (pair : TradingPair) (side order_type : String)
      (price amount : ℚ)
  | cancel (u : Nat) (order_id : Nat)

/-- Apply one public trading operation; a raised error rolls back. -/
def applyOp (st : ExchangeState) : Op → ExchangeState
  | .place u pair side order_type price amount =>
    (run_place_order st u pair side order_type price amount).1
  | .cancel u oid => (run_cancel_order st u oid).1

/-- Apply a sequence of public trading operations. -/
def applyOps (st : ExchangeState) (ops : List Op) : ExchangeState :=
  ops.foldl applyOp st

/-- Balance of the `(u, c)` wallet row, zero when absent. -/
def balanceOf (st : ExchangeState) (u : Nat) (c : String) : ℚ :=
  (st.wallets.find? (walletKey u c)).elim 0 Wallet.balance

/-- Locked balance of the `(u, c)` wallet row, zero when absent. -/
def lockedOf (st : ExchangeState) (u : Nat) (c : String) : ℚ :=
  (st.wallets.find? (walletKey u c)).elim 0 Wallet.locked_balance

/-- Sum of `balance` over every wallet holding currency `c`. -/
def currencyTotal (st : ExchangeState) (c : String) : ℚ :=
  (st.wallets.map fun w => if w.currency = c then w.balance else 0).sum

-- sanity checks for kernel evaluation of the model
example :
    (get_or_create_wallet ⟨[], [], 1, 0, []⟩ 7 "usdt").2.currency = "USDT" := by
  with_unfolding_all decide

/-! ### Generic lemmas about `updateFirst` and `List.find?` -/

theorem updateFirst_of_find?_none {p : α → Bool} {f : α → α} :
    ∀ {l : List α}, l.find? p = none → updateFirst p f l = l
  | [], _ => rfl
  | x :: xs, h => by
    rcases List.find?_eq_none.mp h x (List.mem_cons_self x xs) |>.elim with _
    case _ hx =>
      simp only [updateFirst, if_neg (by simpa using hx)]
      rw [updateFirst_of_find?_none]
      rw [List.find?_cons_of_neg _ hx] at h
      exact h

theorem mem_updateFirst_of_find? {p : α → Bool} {f : α → α} :
    ∀ {l : List α} {w : α}, l.find? p = some w →
      ∀ y ∈ updateFirst p f l, y ∈ l ∨ y = f w
  | [], w, h => by simp at h
  | x :: xs, w, h => by
    intro y hy
    by_cases hx : p x
    · rw [List.find?_cons_of_pos _ hx] at h
      injection h with h; subst h
      simp only [updateFirst, if_pos hx, List.mem_cons] at hy
      rcases hy with hy | hy
      · exact Or.inr hy
      · exact Or.inl (List.mem_cons_of_mem _ hy)
    · rw [List.find?_cons_of_neg _ hx] at h
      simp only [updateFirst, if_neg hx, List.mem_cons] at hy
      rcases hy with hy | hy
      · exact Or.inl (by simp [hy])
      · rcases mem_updateFirst_of_find? h y hy with h' | h'
        · exact Or.inl (List.mem_cons_of_mem _ h')
        · exact Or.inr h'

theorem mem_updateFirst {p : α → Bool} {f : α → α} :
    ∀ {l : List α}, ∀ y ∈ updateFirst p f l,
      y ∈ l ∨ ∃ x ∈ l, p x ∧ y = f x
  | [], y, hy => by simp [updateFirst] at hy
  | x :: xs, y, hy => by
    by_cases hx : p x
    · simp only [updateFirst, if_pos hx, List.mem_cons] at hy
      rcases hy with hy | hy
      · exact Or.inr ⟨x, List.mem_cons_self x xs, hx, hy⟩
      · exact Or.inl (List.mem_cons_of_mem _ hy)
    · simp only [updateFirst, if_neg hx, List.mem_cons] at hy
      rcases hy with hy | hy
      · exact Or.inl (by simp [hy])
      · rcases mem_updateFirst y hy with h' | ⟨z, hz, hpz, hyz⟩
        · exact Or.inl (List.mem_cons_of_mem _ h')
        · exact Or.inr ⟨z, List.mem_cons_of_mem _ hz, hpz, hyz⟩

theorem find?_updateFirst_same {q : α → Bool} {f : α → α}
    (hf : ∀ x, q (f x) = q x) :
    ∀ l : List α, (updateFirst q f l).find? q = (l.find? q).map f
  | [] => rfl
  | x :: xs => by
    by_cases hx : q x
    · simp only [updateFirst, if_pos hx]
      rw [List.find?_cons_of_pos _ (by rw [hf]; exact hx),
        List.find?_cons_of_pos _ hx]
      rfl
    · simp only [updateFirst, if_neg hx]
      rw [List.find?_cons_of_neg _ hx, List.find?_cons_of_neg _ hx]
      exact find?_updateFirst_same hf xs

theorem find?_updateFirst_disj {p q : α → Bool} {f : α → α}
    (hpq : ∀ x, p x → ¬ q x) (hf : ∀ x, p x → q (f x) = q x) :
    ∀ l : List α, (updateFirst p f l).find? q = l.find? q
  | [] => rfl
  | x :: xs => by
    by_cases hx : p x
    · simp only [updateFirst, if_pos hx]
      rw [List.find?_cons_of_neg _ (by rw [hf x hx]; exact hpq x hx),
        List.find?_cons_of_neg _ (hpq x hx)]
    · simp only [updateFirst, if_neg hx]
      by_cases hq : q x
      · rw [List.find?_cons_of_pos _ hq, List.find?_cons_of_pos _ hq]
      · rw [List.find?_cons_of_neg _ hq, List.find?_cons_of_neg _ hq]
        exact find?_updateFirst_disj hpq hf xs

theorem map_updateFirst {p : α → Bool} {f : α → α} (g : α → β)
    (hg : ∀ x, p x → g (f x) = g x) :
    ∀ l : List α, (updateFirst p f l).map g = l.map g
  | [] => rfl
  | x :: xs => by
    by_cases hx : p x
    · simp only [updateFirst, if_pos hx, List.map_cons, hg x hx]
    · simp only [updateFirst, if_neg hx, List.map_cons,
        map_updateFirst g hg xs]

theorem sum_map_updateFirst (g : α → ℚ) {p : α → Bool} {f : α → α} :
    ∀ {l : List α} {x : α}, l.find? p = some x →
      ((updateFirst p f l).map g).sum = (l.map g).sum + (g (f x) - g x)
  | [], x, h => by simp at h
  | y :: ys, x, h => by
    by_cases hy : p y
    · rw [List.find?_cons_of_pos _ hy] at h
      injection h with h; subst h
      simp only [updateFirst, if_pos hy, List.map_cons, List.sum_cons]
      ring
    · rw [List.find?_cons_of_neg _ hy] at h
      simp only [updateFirst, if_neg hy, List.map_cons, List.sum_cons,
        sum_map_updateFirst g h]
      ring

/-! ### Wallet-key facts -/

theorem walletKey_iff {u : Nat} {c : String} {w : Wallet} :
    walletKey u c w = true ↔ w.user_id = u ∧ w.currency = c := by
  simp [walletKey]

theorem walletKey_disj {u u' : Nat} {c c' : String}
    (h : ¬(u' = u ∧ c' = c)) :
    ∀ w, walletKey u c w → ¬ walletKey u' c' w := by
  intro w hw hw'
  rw [walletKey_iff] at hw hw'
  exact h ⟨hw'.1.symm.trans hw.1, hw'.2.symm.trans hw.2⟩

/-! ### Views of `modifyWallet` and `get_or_create_wallet` -/

theorem lockedOf_modify_of_find? {st : ExchangeState} {u : Nat} {c : String}
    (f : Wallet → Wallet) {w : Wallet}
    (hid : ∀ x, (f x).user_id = x.user_id)
    (hcur : ∀ x, (f x).currency = x.currency)
    (hfind : st.wallets.find? (walletKey u c) = some w) :
    ∀ u' c', lockedOf (modifyWallet st u c f) u' c' = lockedOf st u' c' +
      (if u' = u ∧ c' = c then (f w).locked_balance - w.locked_balance else 0) := by
  intro u' c'
  have hk : ∀ q₁ q₂ x, walletKey q₁ q₂ (f x) = walletKey q₁ q₂ x := by
    intro q₁ q₂ x; simp [walletKey, hid, hcur]
  by_cases hsame : u' = u ∧ c' = c
  · obtain ⟨h₁, h₂⟩ := hsame; subst h₁; subst h₂
    unfold lockedOf modifyWallet
    rw [find?_updateFirst_same (hk u' c'), hfind]
    simp
  · unfold lockedOf modifyWallet
    rw [find?_updateFirst_disj (walletKey_disj hsame) (fun x _ => hk u' c' x)]
    simp [if_neg hsame]

theorem balanceOf_modify_of_find? {st : ExchangeState} {u : Nat} {c : String}
    (f : Wallet → Wallet) {w : Wallet}
    (hid : ∀ x, (f x).user_id = x.user_id)
    (hcur : ∀ x, (f x).currency = x.currency)
    (hfind : st.wallets.find? (walletKey u c) = some w) :
    ∀ u' c', balanceOf (modifyWallet st u c f) u' c' = balanceOf st u' c' +
      (if u' = u ∧ c' = c then (f w).balance - w.balance else 0) := by
  intro u' c'
  have hk : ∀ q₁ q₂ x, walletKey q₁ q₂ (f x) = walletKey q₁ q₂ x := by
    intro q₁ q₂ x; simp [walletKey, hid, hcur]
  by_cases hsame : u' = u ∧ c' = c
  · obtain ⟨h₁, h₂⟩ := hsame; subst h₁; subst h₂
    unfold balanceOf modifyWallet
    rw [find?_updateFirst_same (hk u' c'), hfind]
    simp
  · unfold balanceOf modifyWallet
    rw [find?_updateFirst_disj (walletKey_disj hsame) (fun x _ => hk u' c' x)]
    simp [if_neg hsame]

theorem currencyTotal_modify_of_find? {st : ExchangeState} {u : Nat} {c : String}
    (f : Wallet → Wallet) {w : Wallet}
    (hcur : ∀ x, (f x).currency = x.currency)
    (hfind : st.wallets.find? (walletKey u c) = some w) :
    ∀ c', currencyTotal (modifyWallet st u c f) c' = currencyTotal st c' +
      (if c = c' then (f w).balance - w.balance else 0) := by
  intro c'
  unfold currencyTotal modifyWallet
  rw [sum_map_updateFirst _ hfind]
  have hwc : w.currency = c := (walletKey_iff.mp (List.find?_some hfind)).2
  rw [hcur w, hwc]
  by_cases hc : c = c' <;> simp [hc]

theorem mem_modify_of_find? {st : ExchangeState} {u : Nat} {c : String}
    {f : Wallet → Wallet} {w : Wallet}
    (hfind : st.wallets.find? (walletKey u c) = some w) :
    ∀ y ∈ (modifyWallet st u c f).wallets, y ∈ st.wallets ∨ y = f w :=
  fun y hy => mem_updateFirst_of_find? hfind y hy

theorem get_or_create_wallet_cases (st : ExchangeState) (u : Nat) (c : String) :
    ((get_or_create_wallet st u c).1 = st ∧
      st.wallets.find? (walletKey u c.toUpper) =
        some (get_or_create_wallet st u c).2) ∨
    (st.wallets.find? (walletKey u c.toUpper) = none ∧
      (get_or_create_wallet st u c).1 =
        { st with wallets := st.wallets ++ [⟨u, c.toUpper, 0, 0⟩] } ∧
      (get_or_create_wallet st u c).2 = ⟨u, c.toUpper, 0, 0⟩) := by
  unfold get_or_create_wallet
  cases hfind : st.wallets.find? (walletKey u c.toUpper) with
  | some w => exact Or.inl ⟨rfl, rfl⟩
  | none => exact Or.inr ⟨rfl, rfl, rfl⟩

theorem lockedOf_get_or_create (st : ExchangeState) (u : Nat) (c : String) :
    ∀ u' c', lockedOf (get_or_create_wallet st u c).1 u' c' = lockedOf st u' c' := by
  intro u' c'
  rcases get_or_create_wallet_cases st u c with ⟨h, _⟩ | ⟨hnone, h, _⟩
  · rw [h]
  · rw [h]; unfold lockedOf
    simp only [List.find?_append]
    cases hf : st.wallets.find? (walletKey u' c') with
    | some w => simp
    | none =>
      simp only [Option.none_or]
      by_cases hk : walletKey u' c' (⟨u, c.toUpper, 0, 0⟩ : Wallet)
      · rw [List.find?_cons_of_pos _ hk]; simp
      · rw [List.find?_cons_of_neg _ hk]; simp

theorem balanceOf_get_or_create (st : ExchangeState) (u : Nat) (c : String) :
    ∀ u' c', balanceOf (get_or_create_wallet st u c).1 u' c' = balanceOf st u' c' := by
  intro u' c'
  rcases get_or_create_wallet_cases st u c with ⟨h, _⟩ | ⟨hnone, h, _⟩
  · rw [h]
  · rw [h]; unfold balanceOf
    simp only [List.find?_append]
    cases hf : st.wallets.find? (walletKey u' c') with
    | some w => simp
    | none =>
      simp only [Option.none_or]
      by_cases hk : walletKey u' c' (⟨u, c.toUpper, 0, 0⟩ : Wallet)
      · rw [List.find?_cons_of_pos _ hk]; simp
      · rw [List.find?_cons_of_neg _ hk]; simp

theorem currencyTotal_get_or_create (st : ExchangeState) (u : Nat) (c : String) :
    ∀ c', currencyTotal (get_or_create_wallet st u c).1 c' = currencyTotal st c' := by
  intro c'
  rcases get_or_create_wallet_cases st u c with ⟨h, _⟩ | ⟨hnone, h, _⟩
  · rw [h]
  · rw [h]; unfold currencyTotal
    simp

theorem find?_get_or_create_self (st : ExchangeState) (u : Nat) (c : String) :
    (get_or_create_wallet st u c).1.wallets.find? (walletKey u c.toUpper) =
      some (get_or_create_wallet st u c).2 := by
  rcases get_or_create_wallet_cases st u c with ⟨h, h₂⟩ | ⟨hnone, h, h₂⟩
  · rw [h, h₂]
  · rw [h, h₂]
    simp only [List.find?_append, hnone, Option.none_or]
    rw [List.find?_cons_of_pos _ (by simp [walletKey])]

theorem mem_get_or_create {st : ExchangeState} {u : Nat} {c : String} :
    ∀ y ∈ (get_or_create_wallet st u c).1.wallets,
      y ∈ st.wallets ∨ y = ⟨u, c.toUpper, 0, 0⟩ := by
  intro y hy
  rcases get_or_create_wallet_cases st u c with ⟨h, _⟩ | ⟨hnone, h, _⟩
  · rw [h] at hy; exact Or.inl hy
  · rw [h] at hy
    simp only [List.mem_append, List.mem_singleton] at hy
    exact hy

/-! ### Success shapes of the wallet operations -/

theorem lock_balance_ok {st : ExchangeState} {u : Nat} {c : String} {amt : ℚ}
    {st' : ExchangeState} {w' : Wallet}
    (h : lock_balance st u c amt = .ok (st', w')) :
    0 < amt ∧
    ∃ w, st.wallets.find? (walletKey u c.toUpper) = some w ∧
      amt ≤ w.available_balance ∧
      st' = modifyWallet st u c.toUpper
        (fun x => { x with locked_balance := x.locked_balance + amt }) := by
  unfold lock_balance at h
  split at h
  · exact absurd h (by simp)
  next hpos =>
    split at h
    · exact absurd h (by simp)
    next w hfind =>
      split at h
      · exact absurd h (by simp)
      next havail =>
        refine ⟨by linarith, w, hfind, by linarith, ?_⟩
        injection h with h
        exact congrArg Prod.fst h.symm

theorem unlock_balance_ok {st : ExchangeState} {u : Nat} {c : String} {amt : ℚ}
    {st' : ExchangeState} {w' : Wallet}
    (h : unlock_balance st u c amt = .ok (st', w')) :
    0 < amt ∧
    ∃ w, st.wallets.find? (walletKey u c.toUpper) = some w ∧
      amt ≤ w.locked_balance ∧
      st' = modifyWallet st u c.toUpper
        (fun x => { x with locked_balance := x.locked_balance - amt }) := by
  unfold unlock_balance at h
  split at h
  · exact absurd h (by simp)
  next hpos =>
    split at h
    · exact absurd h (by simp)
    next w hfind =>
      split at h
      · exact absurd h (by simp)
      next hlocked =>
        refine ⟨by linarith, w, hfind, by linarith, ?_⟩
        injection h with h
        exact congrArg Prod.fst h.symm

theorem transfer_locked_ok {st : ExchangeState} {fu tu : Nat} {c : String}
    {amt : ℚ} {st' : ExchangeState}
    (h : transfer_locked st fu tu c amt = .ok st') :
    0 < amt ∧
    ∃ fw, st.wallets.find? (walletKey fu c.toUpper) = some fw ∧
      amt ≤ fw.locked_balance ∧
      st' = modifyWallet
        (get_or_create_wallet
          (modifyWallet st fu c.toUpper
            (fun x => { x with locked_balance := x.locked_balance - amt,
                               balance := x.balance - amt })) tu c).1
        tu c.toUpper (fun x => { x with balance := x.balance + amt }) := by
  unfold transfer_locked at h
  split at h
  · exact absurd h (by simp)
  next hpos =>
    split at h
    · exact absurd h (by simp)
    next fw hfind =>
      split at h
      · exact absurd h (by simp)
      next hlocked =>
        refine ⟨by linarith, fw, hfind, by linarith, ?_⟩
        injection h with h
        exact h.symm

theorem execute_match_ok {st : ExchangeState} {taker maker : Order} {qty : ℚ}
    {r : ExchangeState × Order × Order}
    (h : execute_match st taker maker qty = .ok r) :
    ∃ st₁ st₂,
      transfer_locked st (sellerOf taker maker) (buyerOf taker maker)
        taker.pair.base_currency qty = .ok st₁ ∧
      transfer_locked st₁ (buyerOf taker maker) (sellerOf taker maker)
        taker.pair.quote_currency (maker.price * qty) = .ok st₂ ∧
      r.1.wallets = st₂.wallets ∧
      r.1.orders = updateFirst (fun o => o.id == maker.id)
        (fun _ => fillUpd maker qty)
        (updateFirst (fun o => o.id == taker.id)
          (fun _ => fillUpd taker qty) st₂.orders) ∧
      r.1.next_order_id = st₂.next_order_id ∧
      r.1.clock = st₂.clock ∧
      r.1.trades = st₂.trades ++
        [⟨buyerOf taker maker, sellerOf taker maker, taker.pair.base_currency,
          taker.pair.quote_currency, qty, maker.price, buyPriceOf taker maker⟩] ∧
      r.2.1 = fillUpd taker qty ∧ r.2.2 = fillUpd maker qty := by
  unfold execute_match at h
  dsimp only at h
  split at h
  · exact absurd h (by simp)
  next st₁ h₁ =>
    split at h
    · exact absurd h (by simp)
    next st₂ h₂ =>
      injection h with h
      exact ⟨st₁, st₂, h₁, h₂, by rw [← h], by rw [← h], by rw [← h],
        by rw [← h], by rw [← h], by rw [← h], by rw [← h]⟩

/-! ### Balance bookkeeping of the wallet operations -/

theorem currencyTotal_congr {st st' : ExchangeState}
    (h : st'.wallets = st.wallets) :
    ∀ c', currencyTotal st' c' = currencyTotal st c' := by
  intro c'; unfold currencyTotal; rw [h]

theorem lockedOf_congr {st st' : ExchangeState}
    (h : st'.wallets = st.wallets) :
    ∀ u' c', lockedOf st' u' c' = lockedOf st u' c' := by
  intro u' c'; unfold lockedOf; rw [h]

theorem balanceOf_congr {st st' : ExchangeState}
    (h : st'.wallets = st.wallets) :
    ∀ u' c', balanceOf st' u' c' = balanceOf st u' c' := by
  intro u' c'; unfold balanceOf; rw [h]

theorem transfer_locked_balances {st : ExchangeState} {fu tu : Nat}
    {c : String} {amt : ℚ} {st' : ExchangeState}
    (h : transfer_locked st fu tu c amt = .ok st') :
    (∀ u' c', lockedOf st' u' c' = lockedOf st u' c' -
      (if u' = fu ∧ c' = c.toUpper then amt else 0)) ∧
    (∀ u' c', balanceOf st' u' c' = balanceOf st u' c' -
      (if u' = fu ∧ c' = c.toUpper then amt else 0) +
      (if u' = tu ∧ c' = c.toUpper then amt else 0)) ∧
    (∀ c', currencyTotal st' c' = currencyTotal st c') := by
  obtain ⟨hpos, fw, hfind, hlock, hst⟩ := transfer_locked_ok h
  subst hst
  refine ⟨?_, ?_, ?_⟩
  · intro u' c'
    rw [lockedOf_modify_of_find? (fun x => { x with balance := x.balance + amt }) (fun x => rfl) (fun x => rfl)
      (find?_get_or_create_self _ _ _)]
    rw [lockedOf_get_or_create]
    rw [lockedOf_modify_of_find? (fun x => { x with locked_balance := x.locked_balance - amt, balance := x.balance - amt }) (fun x => rfl) (fun x => rfl) hfind]
    by_cases h₁ : u' = fu ∧ c' = c.toUpper <;>
      by_cases h₂ : u' = tu ∧ c' = c.toUpper <;>
      simp [h₁, h₂] <;> (try split_ifs) <;> ring
  · intro u' c'
    rw [balanceOf_modify_of_find? (fun x => { x with balance := x.balance + amt }) (fun x => rfl) (fun x => rfl)
      (find?_get_or_create_self _ _ _)]
    rw [balanceOf_get_or_create]
    rw [balanceOf_modify_of_find? (fun x => { x with locked_balance := x.locked_balance - amt, balance := x.balance - amt }) (fun x => rfl) (fun x => rfl) hfind]
    by_cases h₁ : u' = fu ∧ c' = c.toUpper <;>
      by_cases h₂ : u' = tu ∧ c' = c.toUpper <;>
      simp [h₁, h₂] <;> (try split_ifs) <;> ring
  · intro c'
    rw [currencyTotal_modify_of_find? (fun x => { x with balance := x.balance + amt }) (fun x => rfl)
      (find?_get_or_create_self _ _ _)]
    rw [currencyTotal_get_or_create]
    rw [currencyTotal_modify_of_find? (fun x => { x with locked_balance := x.locked_balance - amt, balance := x.balance - amt }) (fun x => rfl) hfind]
    by_cases hc : c.toUpper = c' <;> simp [hc] <;> (try split_ifs) <;> ring

theorem lock_balance_balances {st : ExchangeState} {u : Nat} {c : String}
    {amt : ℚ} {st' : ExchangeState} {w' : Wallet}
    (h : lock_balance st u c amt = .ok (st', w')) :
    (st'.wallets.map fun w => (w.user_id, w.currency, w.balance)) =
      (st.wallets.map fun w => (w.user_id, w.currency, w.balance)) ∧
    (∀ u' c', balanceOf st' u' c' = balanceOf st u' c') ∧
    (∀ u' c', lockedOf st' u' c' = lockedOf st u' c' +
      (if u' = u ∧ c' = c.toUpper then amt else 0)) ∧
    (∀ c', currencyTotal st' c' = currencyTotal st c') := by
  obtain ⟨hpos, w, hfind, havail, hst⟩ := lock_balance_ok h
  subst hst
  refine ⟨?_, ?_, ?_, ?_⟩
  · unfold modifyWallet
    apply map_updateFirst
    intro x _
    rfl
  · intro u' c'
    rw [balanceOf_modify_of_find? (fun x => { x with locked_balance := x.locked_balance + amt }) (fun x => rfl) (fun x => rfl) hfind]
    simp
  · intro u' c'
    rw [lockedOf_modify_of_find? (fun x => { x with locked_balance := x.locked_balance + amt }) (fun x => rfl) (fun x => rfl) hfind]
    by_cases h₁ : u' = u ∧ c' = c.toUpper <;> simp [h₁]
  · intro c'
    rw [currencyTotal_modify_of_find? (fun x => { x with locked_balance := x.locked_balance + amt }) (fun x => rfl) hfind]
    simp

theorem unlock_balance_balances {st : ExchangeState} {u : Nat} {c : String}
    {amt : ℚ} {st' : ExchangeState} {w' : Wallet}
    (h : unlock_balance st u c amt = .ok (st', w')) :
    (st'.wallets.map fun w => (w.user_id, w.currency, w.balance)) =
      (st.wallets.map fun w => (w.user_id, w.currency, w.balance)) ∧
    (∀ u' c', balanceOf st' u' c' = balanceOf st u' c') ∧
    (∀ u' c', lockedOf st' u' c' = lockedOf st u' c' -
      (if u' = u ∧ c' = c.toUpper then amt else 0)) ∧
    (∀ c', currencyTotal st' c' = currencyTotal st c') := by
  obtain ⟨hpos, w, hfind, hlocked, hst⟩ := unlock_balance_ok h
  subst hst
  refine ⟨?_, ?_, ?_, ?_⟩
  · unfold modifyWallet
    apply map_updateFirst
    intro x _
    rfl
  · intro u' c'
    rw [balanceOf_modify_of_find? (fun x => { x with locked_balance := x.locked_balance - amt }) (fun x => rfl) (fun x => rfl) hfind]
    simp
  · intro u' c'
    rw [lockedOf_modify_of_find? (fun x => { x with locked_balance := x.locked_balance - amt }) (fun x => rfl) (fun x => rfl) hfind]
    by_cases h₁ : u' = u ∧ c' = c.toUpper <;> simp [h₁] <;> ring
  · intro c'
    rw [currencyTotal_modify_of_find? (fun x => { x with locked_balance := x.locked_balance - amt }) (fun x => rfl) hfind]
    simp

/-! ### Conservation through matching and the public operations -/

theorem execute_match_total {st : ExchangeState} {taker maker : Order}
    {qty : ℚ} {r : ExchangeState × Order × Order}
    (h : execute_match st taker maker qty = .ok r) :
    ∀ c', currencyTotal r.1 c' = currencyTotal st c' := by
  obtain ⟨st₁, st₂, h₁, h₂, hw, -⟩ := execute_match_ok h
  intro c'
  rw [currencyTotal_congr hw, (transfer_locked_balances h₂).2.2,
    (transfer_locked_balances h₁).2.2]

theorem match_loop_total :
    ∀ {makers : List Order} {st : ExchangeState} {taker : Order} {n : Nat}
      {r : ExchangeState × Order × Nat},
      match_loop st taker makers n = .ok r →
      ∀ c', currencyTotal r.1 c' = currencyTotal st c'
  | [], st, taker, n, r, h => by
    unfold match_loop at h
    injection h with h
    rw [← h]
    exact fun c' => rfl
  | maker :: rest, st, taker, n, r, h => by
    unfold match_loop at h
    dsimp only at h
    split at h
    · injection h with h
      rw [← h]
      exact fun c' => rfl
    · split at h
      · exact absurd h (by simp)
      next r' hexec =>
        intro c'
        rw [match_loop_total h c', execute_match_total hexec c']

theorem place_order_total {st : ExchangeState} {u : Nat} {pair : TradingPair}
    {side order_type : String} {price amount : ℚ}
    {r : ExchangeState × Order}
    (h : place_order st u pair side order_type price amount = .ok r) :
    ∀ c', currencyTotal r.1 c' = currencyTotal st c' := by
  unfold place_order at h
  dsimp only at h
  split at h
  · exact absurd h (by simp)
  · split at h
    · exact absurd h (by simp)
    next locked hlock =>
      split at h
      · exact absurd h (by simp)
      next r' hmatch =>
        injection h with h
        intro c'
        rw [← h]
        show currencyTotal r'.1 c' = currencyTotal st c'
        rw [match_loop_total hmatch c']
        show currencyTotal locked.1 c' = currencyTotal st c'
        split at hlock
        · exact (lock_balance_balances hlock).2.2.2 c'
        · exact (lock_balance_balances hlock).2.2.2 c'

theorem cancel_order_total {st : ExchangeState} {u oid : Nat}
    {r : ExchangeState × Order}
    (h : cancel_order st u oid = .ok r) :
    ∀ c', currencyTotal r.1 c' = currencyTotal st c' := by
  unfold cancel_order at h
  dsimp only at h
  split at h
  · exact absurd h (by simp)
  next order hfind =>
    split at h
    · exact absurd h (by simp)
    split at h
    · exact absurd h (by simp)
    split at h
    · exact absurd h (by simp)
    next st₁ hstep =>
      injection h with h
      intro c'
      rw [← h]
      show currencyTotal st₁ c' = currencyTotal st c'
      split at hstep
      · split at hstep
        · exact absurd hstep (by simp)
        next r₁ hunlock =>
          injection hstep with hstep
          rw [← hstep]
          split at hunlock
          · exact (unlock_balance_balances hunlock).2.2.2 c'
          · exact (unlock_balance_balances hunlock).2.2.2 c'
      · injection hstep with hstep
        rw [← hstep]

theorem run_place_order_total (st : ExchangeState) (u : Nat)
    (pair : TradingPair) (side order_type : String) (price amount : ℚ) :
    ∀ c, currencyTotal
      (run_place_order st u pair side order_type price amount).1 c =
      currencyTotal st c := by
  unfold run_place_order
  cases h : place_order st u pair side order_type price amount with
  | error e => intro c; rfl
  | ok r =>
    obtain ⟨st', o⟩ := r
    intro c
    exact place_order_total h c

theorem run_cancel_order_total (st : ExchangeState) (u oid : Nat) :
    ∀ c, currencyTotal (run_cancel_order st u oid).1 c = currencyTotal st c := by
  unfold run_cancel_order
  cases h : cancel_order st u oid with
  | error e => intro c; rfl
  | ok r =>
    obtain ⟨st', o⟩ := r
    intro c
    exact cancel_order_total h c

theorem applyOp_total (st : ExchangeState) (op : Op) :
    ∀ c, currencyTotal (applyOp st op) c = currencyTotal st c := by
  cases op with
  | place u pair side order_type price amount =>
    exact run_place_order_total st u pair side order_type price amount
  | cancel u oid => exact run_cancel_order_total st u oid

theorem applyOps_total :
    ∀ (ops : List Op) (st : ExchangeState) (c : String),
      currencyTotal (applyOps st ops) c = currencyTotal st c
  | [], st, c => rfl
  | op :: ops, st, c => by
    show currencyTotal (applyOps (applyOp st op) ops) c = currencyTotal st c
    rw [applyOps_total ops (applyOp st op) c, applyOp_total st op c]

/-- Concrete one-wallet state used by witnesses: user 1 holds 50 USDT with 5
locked. -/
def stA : ExchangeState := ⟨[⟨1, "USDT", 50, 5⟩], [], 1, 0, []⟩

/-- `stA` after `transfer_locked stA 1 2 "USDT" 5`. -/
def stAT : ExchangeState :=
  ⟨[⟨1, "USDT", 45, 0⟩, ⟨2, "USDT", 5, 0⟩], [], 1, 0, []⟩

/-- `stA` after `lock_balance stA 1 "USDT" 10`. -/
def stAL : ExchangeState := ⟨[⟨1, "USDT", 50, 15⟩], [], 1, 0, []⟩

/-- `stA` after `unlock_balance stA 1 "USDT" 5`. -/
def stAU : ExchangeState := ⟨[⟨1, "USDT", 50, 0⟩], [], 1, 0, []⟩

/-- **C1** (currency conservation): across any sequence of `place_order` and
`cancel_order` calls (no deposits or withdrawals), the per-currency sum of
wallet `balance` over all wallets is unchanged; each successful
`transfer_locked` decrements the from-wallet's balance by exactly the amount
it credits to the to-wallet's balance (conserving every currency total), and
successful `lock_balance` / `unlock_balance` change no wallet's `balance`
field. -/
theorem C1_currency_conservation :
    (∀ (st : ExchangeState) (ops : List Op) (c : String),
      currencyTotal (applyOps st ops) c = currencyTotal st c) ∧
    (∀ (st : ExchangeState) (fu tu : Nat) (c : String) (amt : ℚ)
      (st' : ExchangeState), transfer_locked st fu tu c amt = .ok st' →
      (∀ c', currencyTotal st' c' = currencyTotal st c') ∧
      (∀ u' c', balanceOf st' u' c' = balanceOf st u' c' -
        (if u' = fu ∧ c' = c.toUpper then amt else 0) +
        (if u' = tu ∧ c' = c.toUpper then amt else 0))) ∧
    (∀ (st : ExchangeState) (u : Nat) (c : String) (amt : ℚ)
      (st' : ExchangeState) (w' : Wallet),
      lock_balance st u c amt = .ok (st', w') →
      (st'.wallets.map fun w => (w.user_id, w.currency, w.balance)) =
        (st.wallets.map fun w => (w.user_id, w.currency, w.balance))) ∧
    (∀ (st : ExchangeState) (u : Nat) (c : String) (amt : ℚ)
      (st' : ExchangeState) (w' : Wallet),
      unlock_balance st u c amt = .ok (st', w') →
      (st'.wallets.map fun w => (w.user_id, w.currency, w.balance)) =
        (st.wallets.map fun w => (w.user_id, w.currency, w.balance))) :=
  ⟨fun st ops c => applyOps_total ops st c,
   fun st fu tu c amt st' h =>
     ⟨(transfer_locked_balances h).2.2, (transfer_locked_balances h).2.1⟩,
   fun st u c amt st' w' h => (lock_balance_balances h).1,
   fun st u c amt st' w' h => (unlock_balance_balances h).1⟩

/-- Witness for C1 at concrete inputs. -/
theorem C1_currency_conservation_witness :
    currencyTotal (applyOps stA [Op.cancel 1 1]) "USDT" =
      currencyTotal stA "USDT" ∧
    currencyTotal stAT "USDT" = currencyTotal stA "USDT" ∧
    balanceOf stAT 2 "USDT" = balanceOf stA 2 "USDT" -
      (if (2 : Nat) = 1 ∧ "USDT" = "USDT".toUpper then (5 : ℚ) else 0) +
      (if (2 : Nat) = 2 ∧ "USDT" = "USDT".toUpper then (5 : ℚ) else 0) ∧
    (stAL.wallets.map fun w => (w.user_id, w.currency, w.balance)) =
      (stA.wallets.map fun w => (w.user_id, w.currency, w.balance)) ∧
    (stAU.wallets.map fun w => (w.user_id, w.currency, w.balance)) =
      (stA.wallets.map fun w => (w.user_id, w.currency, w.balance)) :=
  ⟨C1_currency_conservation.1 stA [Op.cancel 1 1] "USDT",
   (C1_currency_conservation.2.1 stA 1 2 "USDT" 5 stAT
     (by with_unfolding_all decide)).1 "USDT",
   (C1_currency_conservation.2.1 stA 1 2 "USDT" 5 stAT
     (by with_unfolding_all decide)).2 2 "USDT",
   C1_currency_conservation.2.2.1 stA 1 "USDT" 10 stAL ⟨1, "USDT", 50, 15⟩
     (by with_unfolding_all decide),
   C1_currency_conservation.2.2.2 stA 1 "USDT" 5 stAU ⟨1, "USDT", 50, 0⟩
     (by with_unfolding_all decide)⟩

/-! ### The non-negativity invariant (0 ≤ locked ≤ balance) -/

/-- P1: every wallet row has `0 ≤ locked_balance ≤ balance`. -/
def WalletInv (st : ExchangeState) : Prop :=
  ∀ w ∈ st.wallets, 0 ≤ w.locked_balance ∧ w.locked_balance ≤ w.balance

theorem WalletInv_congr {st st' : ExchangeState}
    (h : st'.wallets = st.wallets) (hinv : WalletInv st) : WalletInv st' :=
  fun w hw => hinv w (h ▸ hw)

theorem WalletInv_modify {st : ExchangeState} {u : Nat} {c : String}
    {f : Wallet → Wallet} {w : Wallet}
    (hfind : st.wallets.find? (walletKey u c) = some w)
    (hinv : WalletInv st)
    (hw : 0 ≤ (f w).locked_balance ∧ (f w).locked_balance ≤ (f w).balance) :
    WalletInv (modifyWallet st u c f) := by
  intro y hy
  rcases mem_modify_of_find? hfind y hy with h | h
  · exact hinv y h
  · rw [h]; exact hw

theorem WalletInv_get_or_create {st : ExchangeState} {u : Nat} {c : String}
    (hinv : WalletInv st) : WalletInv (get_or_create_wallet st u c).1 := by
  intro y hy
  rcases mem_get_or_create y hy with h | h
  · exact hinv y h
  · rw [h]; exact ⟨le_refl 0, le_refl 0⟩

theorem deposit_ok {st : ExchangeState} {u : Nat} {c : String} {amt : ℚ}
    {st' : ExchangeState} {w' : Wallet}
    (h : deposit st u c amt = .ok (st', w')) :
    0 < amt ∧ st' = modifyWallet (get_or_create_wallet st u c).1 u c.toUpper
      (fun x => { x with balance := x.balance + amt }) := by
  unfold deposit at h
  split at h
  · exact absurd h (by simp)
  next hpos =>
    dsimp only at h
    injection h with h
    exact ⟨by linarith, (congrArg Prod.fst h).symm⟩

theorem withdraw_ok {st : ExchangeState} {u : Nat} {c : String} {amt : ℚ}
    {st' : ExchangeState} {w' : Wallet}
    (h : withdraw st u c amt = .ok (st', w')) :
    0 < amt ∧
    ∃ w, st.wallets.find? (walletKey u c.toUpper) = some w ∧
      amt ≤ w.available_balance ∧
      st' = modifyWallet st u c.toUpper
        (fun x => { x with balance := x.balance - amt }) := by
  unfold withdraw at h
  split at h
  · exact absurd h (by simp)
  next hpos =>
    split at h
    · exact absurd h (by simp)
    next w hfind =>
      split at h
      · exact absurd h (by simp)
      next havail =>
        refine ⟨by linarith, w, hfind, by linarith, ?_⟩
        injection h with h
        exact congrArg Prod.fst h.symm

theorem deposit_inv {st : ExchangeState} {u : Nat} {c : String} {amt : ℚ}
    {r : ExchangeState × Wallet} (h : deposit st u c amt = .ok r)
    (hinv : WalletInv st) : WalletInv r.1 := by
  obtain ⟨st', w'⟩ := r
  obtain ⟨hpos, hst⟩ := deposit_ok h
  subst hst
  have hmid := WalletInv_get_or_create (u := u) (c := c) hinv
  have hw := List.find?_some (find?_get_or_create_self st u c)
  have hmem := List.mem_of_find?_eq_some (find?_get_or_create_self st u c)
  obtain ⟨h₁, h₂⟩ := hmid _ hmem
  exact WalletInv_modify (find?_get_or_create_self st u c) hmid
    ⟨h₁, by dsimp; linarith⟩

theorem withdraw_inv {st : ExchangeState} {u : Nat} {c : String} {amt : ℚ}
    {r : ExchangeState × Wallet} (h : withdraw st u c amt = .ok r)
    (hinv : WalletInv st) : WalletInv r.1 := by
  obtain ⟨st', w'⟩ := r
  obtain ⟨hpos, w, hfind, havail, hst⟩ := withdraw_ok h
  subst hst
  obtain ⟨h₁, h₂⟩ := hinv w (List.mem_of_find?_eq_some hfind)
  have : amt ≤ w.balance - w.locked_balance := havail
  exact WalletInv_modify hfind hinv ⟨h₁, by dsimp; linarith⟩

theorem lock_balance_inv {st : ExchangeState} {u : Nat} {c : String} {amt : ℚ}
    {r : ExchangeState × Wallet} (h : lock_balance st u c amt = .ok r)
    (hinv : WalletInv st) : WalletInv r.1 := by
  obtain ⟨st', w'⟩ := r
  obtain ⟨hpos, w, hfind, havail, hst⟩ := lock_balance_ok h
  subst hst
  obtain ⟨h₁, h₂⟩ := hinv w (List.mem_of_find?_eq_some hfind)
  have : amt ≤ w.balance - w.locked_balance := havail
  exact WalletInv_modify hfind hinv ⟨by dsimp; linarith, by dsimp; linarith⟩

theorem unlock_balance_inv {st : ExchangeState} {u : Nat} {c : String}
    {amt : ℚ} {r : ExchangeState × Wallet}
    (h : unlock_balance st u c amt = .ok r)
    (hinv : WalletInv st) : WalletInv r.1 := by
  obtain ⟨st', w'⟩ := r
  obtain ⟨hpos, w, hfind, hlocked, hst⟩ := unlock_balance_ok h
  subst hst
  obtain ⟨h₁, h₂⟩ := hinv w (List.mem_of_find?_eq_some hfind)
  exact WalletInv_modify hfind hinv ⟨by dsimp; linarith, by dsimp; linarith⟩

theorem transfer_locked_inv {st : ExchangeState} {fu tu : Nat} {c : String}
    {amt : ℚ} {st' : ExchangeState}
    (h : transfer_locked st fu tu c amt = .ok st')
    (hinv : WalletInv st) : WalletInv st' := by
  obtain ⟨hpos, fw, hfind, hlocked, hst⟩ := transfer_locked_ok h
  subst hst
  obtain ⟨h₁, h₂⟩ := hinv fw (List.mem_of_find?_eq_some hfind)
  have hmid : WalletInv (modifyWallet st fu c.toUpper
      (fun x => { x with locked_balance := x.locked_balance - amt, balance := x.balance - amt })) :=
    WalletInv_modify hfind hinv ⟨by dsimp; linarith, by dsimp; linarith⟩
  have hmid₂ := WalletInv_get_or_create (u := tu) (c := c) hmid
  obtain ⟨h₃, h₄⟩ := hmid₂ _ (List.mem_of_find?_eq_some (find?_get_or_create_self _ tu c))
  exact WalletInv_modify (find?_get_or_create_self _ tu c) hmid₂
    ⟨h₃, by dsimp; linarith⟩

theorem execute_match_inv {st : ExchangeState} {taker maker : Order} {qty : ℚ}
    {r : ExchangeState × Order × Order}
    (h : execute_match st taker maker qty = .ok r)
    (hinv : WalletInv st) : WalletInv r.1 := by
  obtain ⟨st₁, st₂, h₁, h₂, hw, -⟩ := execute_match_ok h
  exact WalletInv_congr hw
    (transfer_locked_inv h₂ (transfer_locked_inv h₁ hinv))

theorem match_loop_inv :
    ∀ {makers : List Order} {st : ExchangeState} {taker : Order} {n : Nat}
      {r : ExchangeState × Order × Nat},
      match_loop st taker makers n = .ok r → WalletInv st → WalletInv r.1
  | [], st, taker, n, r, h, hinv => by
    unfold match_loop at h
    injection h with h
    exact WalletInv_congr (congrArg ExchangeState.wallets (congrArg Prod.fst h.symm)) hinv
  | maker :: rest, st, taker, n, r, h, hinv => by
    unfold match_loop at h
    dsimp only at h
    split at h
    · injection h with h
      exact WalletInv_congr (congrArg ExchangeState.wallets (congrArg Prod.fst h.symm)) hinv
    · split at h
      · exact absurd h (by simp)
      next r' hexec =>
        exact match_loop_inv h (execute_match_inv hexec hinv)

theorem place_order_inv {st : ExchangeState} {u : Nat} {pair : TradingPair}
    {side order_type : String} {price amount : ℚ} {r : ExchangeState × Order}
    (h : place_order st u pair side order_type price amount = .ok r)
    (hinv : WalletInv st) : WalletInv r.1 := by
  unfold place_order at h
  dsimp only at h
  split at h
  · exact absurd h (by simp)
  · split at h
    · exact absurd h (by simp)
    next locked hlock =>
      split at h
      · exact absurd h (by simp)
      next r' hmatch =>
        injection h with h
        have hlock_inv : WalletInv locked.1 := by
          split at hlock
          · exact lock_balance_inv hlock hinv
          · exact lock_balance_inv hlock hinv
        have : WalletInv r'.1 := match_loop_inv hmatch (by
          exact fun w hw => hlock_inv w hw)
        exact WalletInv_congr (congrArg ExchangeState.wallets
          (congrArg Prod.fst h.symm)) this

theorem cancel_order_inv {st : ExchangeState} {u oid : Nat}
    {r : ExchangeState × Order}
    (h : cancel_order st u oid = .ok r) (hinv : WalletInv st) :
    WalletInv r.1 := by
  unfold cancel_order at h
  dsimp only at h
  split at h
  · exact absurd h (by simp)
  next order hfind =>
    split at h
    · exact absurd h (by simp)
    split at h
    · exact absurd h (by simp)
    split at h
    · exact absurd h (by simp)
    next st₁ hstep =>
      injection h with h
      have hst₁ : WalletInv st₁ := by
        split at hstep
        · split at hstep
          · exact absurd hstep (by simp)
          next r₁ hunlock =>
            injection hstep with hstep
            subst hstep
            split at hunlock
            · exact unlock_balance_inv hunlock hinv
            · exact unlock_balance_inv hunlock hinv
        · injection hstep with hstep
          subst hstep
          exact hinv
      exact WalletInv_congr (congrArg ExchangeState.wallets
        (congrArg Prod.fst h.symm)) hst₁

/-- **C2** (non-negativity): every committed operation — `deposit`,
`withdraw`, `lock_balance`, `unlock_balance`, `transfer_locked`,
`place_order`, `cancel_order` — preserves `0 ≤ locked_balance ≤ balance` on
every wallet, assuming it held before.  In particular `transfer_locked`,
which decrements `balance` while checking only `locked_balance ≥ amount`,
preserves it. -/
theorem C2_nonneg_invariant :
    ∀ st : ExchangeState, WalletInv st →
      (∀ u c amt r, deposit st u c amt = .ok r → WalletInv r.1) ∧
      (∀ u c amt r, withdraw st u c amt = .ok r → WalletInv r.1) ∧
      (∀ u c amt r, lock_balance st u c amt = .ok r → WalletInv r.1) ∧
      (∀ u c amt r, unlock_balance st u c amt = .ok r → WalletInv r.1) ∧
      (∀ fu tu c amt st', transfer_locked st fu tu c amt = .ok st' →
        WalletInv st') ∧
      (∀ u pair side order_type price amount,
        WalletInv (run_place_order st u pair side order_type price amount).1) ∧
      (∀ u oid, WalletInv (run_cancel_order st u oid).1) := by
  intro st hinv
  refine ⟨fun u c amt r h => deposit_inv h hinv,
    fun u c amt r h => withdraw_inv h hinv,
    fun u c amt r h => lock_balance_inv h hinv,
    fun u c amt r h => unlock_balance_inv h hinv,
    fun fu tu c amt st' h => transfer_locked_inv h hinv,
    fun u pair side order_type price amount => ?_,
    fun u oid => ?_⟩
  · unfold run_place_order
    cases h : place_order st u pair side order_type price amount with
    | error e => exact hinv
    | ok r => exact place_order_inv h hinv
  · unfold run_cancel_order
    cases h : cancel_order st u oid with
    | error e => exact hinv
    | ok r => exact cancel_order_inv h hinv

/-- Witness for C2: the invariant survives a concrete `transfer_locked` and a
concrete `place_order`. -/
theorem C2_nonneg_invariant_witness :
    WalletInv stAT ∧
    WalletInv (run_place_order stA 1 ⟨"BTC/USDT", "BTC", "USDT", true⟩
      "BUY" "LIMIT" 20 1).1 :=
  ⟨(C2_nonneg_invariant stA (by unfold WalletInv; with_unfolding_all decide)).2.2.2.2.1
      1 2 "USDT" 5 stAT (by with_unfolding_all decide),
   (C2_nonneg_invariant stA (by unfold WalletInv; with_unfolding_all decide)).2.2.2.2.2.1
      1 ⟨"BTC/USDT", "BTC", "USDT", true⟩ "BUY" "LIMIT" 20 1⟩

/-! ### C4: the maker-price rule -/

theorem get_or_create_meta (st : ExchangeState) (u : Nat) (c : String) :
    (get_or_create_wallet st u c).1.orders = st.orders ∧
    (get_or_create_wallet st u c).1.trades = st.trades ∧
    (get_or_create_wallet st u c).1.next_order_id = st.next_order_id ∧
    (get_or_create_wallet st u c).1.clock = st.clock := by
  rcases get_or_create_wallet_cases st u c with ⟨h, -⟩ | ⟨-, h, -⟩ <;>
    rw [h] <;> exact ⟨rfl, rfl, rfl, rfl⟩

theorem transfer_locked_meta {st : ExchangeState} {fu tu : Nat} {c : String}
    {amt : ℚ} {st' : ExchangeState}
    (h : transfer_locked st fu tu c amt = .ok st') :
    st'.orders = st.orders ∧ st'.trades = st.trades ∧
    st'.next_order_id = st.next_order_id ∧ st'.clock = st.clock := by
  obtain ⟨-, fw, -, -, hst⟩ := transfer_locked_ok h
  subst hst
  have m := get_or_create_meta (modifyWallet st fu c.toUpper
    (fun x => { x with locked_balance := x.locked_balance - amt, balance := x.balance - amt })) tu c
  exact ⟨m.1, m.2.1, m.2.2.1, m.2.2.2⟩

/-- **C4** (maker-price rule): every trade executed by `execute_match`
records the maker's resting price as the executed price, with quote value
`maker.price * qty`; settlement moves `qty` of the base currency from seller
to buyer and `maker.price * qty` of the quote currency from buyer to
seller. -/
theorem C4_maker_price_rule :
    ∀ (st : ExchangeState) (taker maker : Order) (qty : ℚ)
      (r : ExchangeState × Order × Order),
      execute_match st taker maker qty = .ok r →
      (r.1.trades = st.trades ++
        [⟨buyerOf taker maker, sellerOf taker maker,
          taker.pair.base_currency, taker.pair.quote_currency, qty,
          maker.price, buyPriceOf taker maker⟩]) ∧
      (buyerOf taker maker ≠ sellerOf taker maker →
       taker.pair.base_currency.toUpper ≠ taker.pair.quote_currency.toUpper →
        (balanceOf r.1 (buyerOf taker maker)
            taker.pair.base_currency.toUpper =
          balanceOf st (buyerOf taker maker)
            taker.pair.base_currency.toUpper + qty) ∧
        (balanceOf r.1 (sellerOf taker maker)
            taker.pair.base_currency.toUpper =
          balanceOf st (sellerOf taker maker)
            taker.pair.base_currency.toUpper - qty) ∧
        (balanceOf r.1 (buyerOf taker maker)
            taker.pair.quote_currency.toUpper =
          balanceOf st (buyerOf taker maker)
            taker.pair.quote_currency.toUpper - maker.price * qty) ∧
        (balanceOf r.1 (sellerOf taker maker)
            taker.pair.quote_currency.toUpper =
          balanceOf st (sellerOf taker maker)
            taker.pair.quote_currency.toUpper + maker.price * qty)) := by
  intro st taker maker qty r h
  obtain ⟨st₁, st₂, h₁, h₂, hw, ho, hn, hc, ht, ht₂, hm₂⟩ := execute_match_ok h
  constructor
  · rw [ht, (transfer_locked_meta h₂).2.1, (transfer_locked_meta h₁).2.1]
  · intro hne hcur
    have F₁ := (transfer_locked_balances h₁).2.1
    have F₂ := (transfer_locked_balances h₂).2.1
    refine ⟨?_, ?_, ?_, ?_⟩ <;>
      rw [balanceOf_congr hw _ _, F₂, F₁] <;>
      simp [hne, Ne.symm hne, hcur, Ne.symm hcur] <;>
      ring

/-- Trading pair used by concrete matching scenarios. -/
def PW : TradingPair := ⟨"BTC/USDT", "BTC", "USDT", true⟩

/-- Wallet state for the C4 witness: buyer 1 with 30 USDT locked, seller 2
with 1 BTC locked. -/
def stW : ExchangeState :=
  ⟨[⟨1, "USDT", 30, 30⟩, ⟨2, "BTC", 1, 1⟩], [], 3, 2, []⟩

/-- Taker BUY order of the C4 witness (limit 30). -/
def takerW : Order := ⟨2, 1, PW, "BUY", "LIMIT", 30, 1, 0, "OPEN", 1⟩

/-- Maker SELL order of the C4 witness (resting at 20). -/
def makerW : Order := ⟨1, 2, PW, "SELL", "LIMIT", 20, 1, 0, "OPEN", 0⟩

/-- Result of `execute_match stW takerW makerW 1`. -/
def rW : ExchangeState × Order × Order :=
  (⟨[⟨1, "USDT", 10, 10⟩, ⟨2, "BTC", 0, 0⟩, ⟨1, "BTC", 1, 0⟩,
     ⟨2, "USDT", 20, 0⟩], [], 3, 2, [⟨1, 2, "BTC", "USDT", 1, 20, 30⟩]⟩,
   ⟨2, 1, PW, "BUY", "LIMIT", 30, 1, 1, "FILLED", 1⟩,
   ⟨1, 2, PW, "SELL", "LIMIT", 20, 1, 1, "FILLED", 0⟩)

/-- Witness for C4: a concrete trade at maker price 20 under a taker limit
of 30. -/
theorem C4_maker_price_rule_witness :
    (rW.1.trades = stW.trades ++
      [⟨buyerOf takerW makerW, sellerOf takerW makerW,
        takerW.pair.base_currency, takerW.pair.quote_currency, 1,
        makerW.price, buyPriceOf takerW makerW⟩]) ∧
    (balanceOf rW.1 (buyerOf takerW makerW)
        takerW.pair.base_currency.toUpper =
      balanceOf stW (buyerOf takerW makerW)
        takerW.pair.base_currency.toUpper + 1) ∧
    (balanceOf rW.1 (sellerOf takerW makerW)
        takerW.pair.quote_currency.toUpper =
      balanceOf stW (sellerOf takerW makerW)
        takerW.pair.quote_currency.toUpper + makerW.price * 1) :=
  have h := C4_maker_price_rule stW takerW makerW 1 rW
    (by with_unfolding_all decide)
  have hb := h.2 (by with_unfolding_all decide) (by with_unfolding_all decide)
  ⟨h.1, hb.1, hb.2.2.2⟩

/-! ### C7: placement fails atomically on insufficient balance -/

/-- The balance `validate` requires: `price * amount` for a BUY, `amount`
for a SELL. -/
def requiredOf (side : String) (price amount : ℚ) : ℚ :=
  if side = "BUY" then price * amount else amount

/-- The currency `validate` checks: quote for a BUY, base for a SELL. -/
def requiredCur (pair : TradingPair) (side : String) : String :=
  if side = "BUY" then pair.quote_currency else pair.base_currency

/-- Available balance as `validate` reads it: a missing wallet counts as
zero. -/
def availableOf (st : ExchangeState) (u : Nat) (c : String) : ℚ :=
  match get_wallet st u c with
  | .ok w => w.available_balance
  | .error _ => 0

theorem validate_insufficient {st : ExchangeState} {u : Nat}
    {pair : TradingPair} {side order_type : String} {price amount : ℚ}
    (hactive : pair.is_active = true)
    (hside : side = "BUY" ∨ side = "SELL")
    (htype : order_type = "LIMIT" ∨ order_type = "MARKET")
    (hprice : order_type = "LIMIT" → 0 < price)
    (hamount : 0 < amount)
    (hmin : MIN_ORDER_VALUE ≤ price * amount)
    (hmax : price * amount ≤ MAX_ORDER_VALUE)
    (hinsuf : availableOf st u (requiredCur pair side) <
      requiredOf side price amount) :
    validate st u pair side order_type price amount =
      .error (.insufficientBalance (requiredOf side price amount)
        (availableOf st u (requiredCur pair side)) (requiredCur pair side)) := by
  unfold validate
  unfold availableOf requiredOf requiredCur get_wallet at hinsuf ⊢
  rw [if_neg (by simp [hactive])]
  rw [if_neg (not_not_intro hside)]
  rw [if_neg (not_not_intro htype)]
  rw [if_neg (fun hc => absurd (hprice hc.1) (not_lt.mpr hc.2))]
  rw [if_neg (not_le.mpr hamount)]
  dsimp only
  rw [if_neg (not_lt.mpr hmin)]
  rw [if_neg (not_lt.mpr hmax)]
  rw [if_pos hinsuf]

/-- **C7**: when the caller's available balance in the required currency
(quote with `price*amount` required for BUY, base with `amount` for SELL, a
missing wallet counting as zero) is below the requirement and the order is
otherwise well formed, `place_order` raises `InsufficientBalance` carrying
(required, available, currency) and the state is unchanged: no order row and
no wallet mutation. -/
theorem C7_insufficient_balance :
    ∀ (st : ExchangeState) (u : Nat) (pair : TradingPair)
      (side order_type : String) (price amount : ℚ),
      pair.is_active = true →
      (side = "BUY" ∨ side = "SELL") →
      (order_type = "LIMIT" ∨ order_type = "MARKET") →
      (order_type = "LIMIT" → 0 < price) →
      0 < amount →
      MIN_ORDER_VALUE ≤ price * amount →
      price * amount ≤ MAX_ORDER_VALUE →
      availableOf st u (requiredCur pair side) <
        requiredOf side price amount →
      run_place_order st u pair side order_type price amount =
        (st, .error (.insufficientBalance (requiredOf side price amount)
          (availableOf st u (requiredCur pair side))
          (requiredCur pair side))) := by
  intro st u pair side order_type price amount hactive hside htype hprice
    hamount hmin hmax hinsuf
  unfold run_place_order place_order
  rw [validate_insufficient hactive hside htype hprice hamount hmin hmax hinsuf]

/-- Wallet state of spec scenario 5: user 1 holds 50.00 USDT. -/
def st5 : ExchangeState := ⟨[⟨1, "USDT", 50, 0⟩], [], 1, 0, []⟩

/-- Witness for C7: BUY 0.01 BTC @ 20000 with 50 USDT available is rejected
with `InsufficientBalance(required = 200, available = 50, USDT)` and leaves
the state unchanged. -/
theorem C7_insufficient_balance_witness :
    run_place_order st5 1 PW "BUY" "LIMIT" 20000 (1 / 100) =
      (st5, .error (.insufficientBalance (requiredOf "BUY" 20000 (1 / 100))
        (availableOf st5 1 (requiredCur PW "BUY")) (requiredCur PW "BUY"))) :=
  C7_insufficient_balance st5 1 PW "BUY" "LIMIT" 20000 (1 / 100)
    rfl (Or.inl rfl) (Or.inl rfl) (fun _ => by norm_num) (by norm_num)
    (by with_unfolding_all decide) (by with_unfolding_all decide)
    (by with_unfolding_all decide)

/-! ### C8: cancellation behaviour -/

/-- Currency `cancel_order` unlocks: quote for a BUY, base for a SELL. -/
def cancelCur (o : Order) : String :=
  if o.side = "BUY" then o.pair.quote_currency else o.pair.base_currency

/-- Amount `cancel_order` unlocks: `price * unfilled` for a BUY, `unfilled`
for a SELL. -/
def cancelAmt (o : Order) : ℚ :=
  if o.side = "BUY" then o.price * (o.amount - o.filled_amount)
  else o.amount - o.filled_amount

theorem unlock_branch_eq (order : Order) (st : ExchangeState) (u : Nat) :
    (if order.side = "BUY" then
      unlock_balance st u order.pair.quote_currency
        (order.price * (order.amount - order.filled_amount))
    else
      unlock_balance st u order.pair.base_currency
        (order.amount - order.filled_amount)) =
    unlock_balance st u (cancelCur order) (cancelAmt order) := by
  by_cases hs : order.side = "BUY" <;> simp [cancelCur, cancelAmt, hs]

theorem unlock_balance_succeeds {st : ExchangeState} {u : Nat} {c : String}
    {amt : ℚ} {w : Wallet} (hpos : 0 < amt)
    (hw : st.wallets.find? (walletKey u c.toUpper) = some w)
    (hle : amt ≤ w.locked_balance) :
    unlock_balance st u c amt =
      .ok (modifyWallet st u c.toUpper
            (fun x => { x with locked_balance := x.locked_balance - amt }),
          { w with locked_balance := w.locked_balance - amt }) := by
  unfold unlock_balance
  rw [if_neg (not_le.mpr hpos), hw]
  dsimp only
  rw [if_neg (not_lt.mpr hle)]

theorem cancel_order_success {st : ExchangeState} {u oid : Nat}
    {order : Order} {w : Wallet}
    (hfind : st.orders.find? (fun o => o.id == oid) = some order)
    (huser : order.user_id = u)
    (hstatus : order.status = "PENDING" ∨ order.status = "OPEN")
    (hunfilled : 0 < order.amount - order.filled_amount)
    (hpos : 0 < cancelAmt order)
    (hw : st.wallets.find? (walletKey u (cancelCur order).toUpper) = some w)
    (hle : cancelAmt order ≤ w.locked_balance) :
    run_cancel_order st u oid =
      ({ modifyWallet st u (cancelCur order).toUpper
          (fun x => { x with locked_balance := x.locked_balance - cancelAmt order }) with
         orders := updateFirst (fun o => o.id == oid)
           (fun _ => { order with status := "CANCELLED" }) st.orders },
       .ok { order with status := "CANCELLED" }) := by
  unfold run_cancel_order cancel_order
  rw [hfind]
  dsimp only
  rw [if_neg (not_not_intro huser), if_neg (not_not_intro hstatus),
    if_pos hunfilled, unlock_branch_eq order st u,
    unlock_balance_succeeds hpos hw hle]
  rfl

/-- **C8** (cancellation): `cancel_order` rejects a non-owner or a status
outside PENDING/OPEN with `InvalidOrder`, leaving the state unchanged;
otherwise, with `unfilled = amount - filled_amount`, when `unfilled > 0` it
unlocks `price * unfilled` of the quote currency for a BUY and `unfilled` of
the base currency for a SELL (balances untouched), and in every successful
case the order is saved as `CANCELLED` with `amount`, `filled_amount`,
`price` and `side` unchanged. -/
theorem C8_cancel_order :
    ∀ (st : ExchangeState) (u oid : Nat) (order : Order),
      st.orders.find? (fun o => o.id == oid) = some order →
      ((order.user_id ≠ u →
        run_cancel_order st u oid =
          (st, .error (.invalidOrder "Not your order"))) ∧
       (order.user_id = u →
        ¬(order.status = "PENDING" ∨ order.status = "OPEN") →
        run_cancel_order st u oid =
          (st, .error (.invalidOrder "Cannot cancel order in this status"))) ∧
       (order.user_id = u →
        (order.status = "PENDING" ∨ order.status = "OPEN") →
        0 < order.amount - order.filled_amount →
        ∀ w, st.wallets.find? (walletKey u (cancelCur order).toUpper) = some w →
        0 < cancelAmt order →
        cancelAmt order ≤ w.locked_balance →
        ((run_cancel_order st u oid).2 =
            .ok { order with status := "CANCELLED" } ∧
         (∀ u' c', lockedOf (run_cancel_order st u oid).1 u' c' =
            lockedOf st u' c' -
            (if u' = u ∧ c' = (cancelCur order).toUpper then cancelAmt order
             else 0)) ∧
         (∀ u' c', balanceOf (run_cancel_order st u oid).1 u' c' =
            balanceOf st u' c'))) ∧
       (order.user_id = u →
        (order.status = "PENDING" ∨ order.status = "OPEN") →
        order.amount - order.filled_amount ≤ 0 →
        run_cancel_order st u oid =
          ({ st with
              orders := updateFirst (fun o => o.id == oid)
                (fun _ => { order with status := "CANCELLED" }) st.orders },
           .ok { order with status := "CANCELLED" }))) := by
  intro st u oid order hfind
  refine ⟨?_, ?_, ?_, ?_⟩
  · intro hne
    unfold run_cancel_order cancel_order
    rw [hfind]
    dsimp only
    rw [if_pos hne]
  · intro huser hbad
    unfold run_cancel_order cancel_order
    rw [hfind]
    dsimp only
    rw [if_neg (not_not_intro huser), if_pos hbad]
  · intro huser hstatus hunfilled w hw hpos hle
    have hrun := cancel_order_success hfind huser hstatus hunfilled hpos hw hle
    refine ⟨by rw [hrun], ?_, ?_⟩
    · intro u' c'
      rw [hrun]
      have heq := lockedOf_modify_of_find?
        (fun x => { x with locked_balance := x.locked_balance - cancelAmt order })
        (fun x => rfl) (fun x => rfl) hw u' c'
      calc lockedOf _ u' c'
          = lockedOf (modifyWallet st u (cancelCur order).toUpper
              (fun x => { x with locked_balance :=
                x.locked_balance - cancelAmt order })) u' c' := rfl
        _ = _ := by
            rw [heq]
            by_cases hc : u' = u ∧ c' = (cancelCur order).toUpper <;>
              simp [hc] <;> ring
    · intro u' c'
      rw [hrun]
      have heq := balanceOf_modify_of_find?
        (fun x => { x with locked_balance := x.locked_balance - cancelAmt order })
        (fun x => rfl) (fun x => rfl) hw u' c'
      calc balanceOf _ u' c'
          = balanceOf (modifyWallet st u (cancelCur order).toUpper
              (fun x => { x with locked_balance :=
                x.locked_balance - cancelAmt order })) u' c' := rfl
        _ = _ := by rw [heq]; simp
  · intro huser hstatus hle0
    unfold run_cancel_order cancel_order
    rw [hfind]
    dsimp only
    rw [if_neg (not_not_intro huser), if_neg (not_not_intro hstatus),
      if_neg (not_lt.mpr hle0)]

/-- State for the C8 witness: user 1 holds 50 USDT with 20 locked against an
OPEN BUY order (id 1) for 1 BTC at 20, and a FILLED order (id 2). -/
def stC8 : ExchangeState :=
  ⟨[⟨1, "USDT", 50, 20⟩],
   [⟨1, 1, PW, "BUY", "LIMIT", 20, 1, 0, "OPEN", 0⟩,
    ⟨2, 2, PW, "SELL", "LIMIT", 25, 1, 1, "FILLED", 1⟩],
   3, 2, []⟩

/-- The OPEN BUY order of `stC8`. -/
def ordC8 : Order := ⟨1, 1, PW, "BUY", "LIMIT", 20, 1, 0, "OPEN", 0⟩

/-- The FILLED order of `stC8`. -/
def ordC8f : Order := ⟨2, 2, PW, "SELL", "LIMIT", 25, 1, 1, "FILLED", 1⟩

/-- Witness for C8: non-owner and FILLED cancellations are rejected without
side effects; the owner's cancellation of the OPEN BUY unlocks
`price * unfilled` and marks the order CANCELLED. -/
theorem C8_cancel_order_witness :
    run_cancel_order stC8 2 1 =
      (stC8, .error (.invalidOrder "Not your order")) ∧
    run_cancel_order stC8 2 2 =
      (stC8, .error (.invalidOrder "Cannot cancel order in this status")) ∧
    (run_cancel_order stC8 1 1).2 =
      .ok { ordC8 with status := "CANCELLED" } ∧
    lockedOf (run_cancel_order stC8 1 1).1 1 (cancelCur ordC8).toUpper =
      lockedOf stC8 1 (cancelCur ordC8).toUpper -
      (if 1 = 1 ∧ (cancelCur ordC8).toUpper = (cancelCur ordC8).toUpper then
        cancelAmt ordC8 else 0) ∧
    balanceOf (run_cancel_order stC8 1 1).1 1 "USDT" =
      balanceOf stC8 1 "USDT" :=
  have h₁ := C8_cancel_order stC8 2 1 ordC8 (by with_unfolding_all decide)
  have h₂ := C8_cancel_order stC8 2 2 ordC8f (by with_unfolding_all decide)
  have h₃ := C8_cancel_order stC8 1 1 ordC8 (by with_unfolding_all decide)
  have hs := h₃.2.2.1 rfl (Or.inr rfl) (by with_unfolding_all decide)
    ⟨1, "USDT", 50, 20⟩ (by with_unfolding_all decide)
    (by with_unfolding_all decide) (by with_unfolding_all decide)
  ⟨h₁.1 (by with_unfolding_all decide), h₂.2.1 rfl (by with_unfolding_all decide),
   hs.1, hs.2.1 1 (cancelCur ordC8).toUpper, hs.2.2 1 "USDT"⟩

/-! ### C9: MARKET orders use the supplied price exactly as LIMIT orders -/

/-- Book and wallets for the C9 scenario: one resting SELL of 1 BTC at 20 by
user 2; user 3 holds 20 USDT. -/
def stC9 : ExchangeState :=
  ⟨[⟨2, "BTC", 1, 1⟩, ⟨3, "USDT", 20, 0⟩],
   [⟨1, 2, PW, "SELL", "LIMIT", 20, 1, 0, "OPEN", 0⟩],
   2, 1, []⟩

/-- **C9** (implicit): MARKET orders depend on the caller-supplied price
exactly as LIMIT orders do.  Validation of a MARKET order agrees with the
LIMIT validation whenever `price > 0`; a MARKET order with `price ≤ 0` is
always rejected (with the min-notional error once the earlier checks pass);
matching never reads `order_type`; and two MARKET BUY orders differing only
in supplied price lock different amounts (`price * amount`) and match
different makers. -/
theorem C9_market_uses_price :
    (∀ (st : ExchangeState) (u : Nat) (pair : TradingPair) (side : String)
      (price amount : ℚ), 0 < price →
      validate st u pair side "MARKET" price amount =
        validate st u pair side "LIMIT" price amount) ∧
    (∀ (st : ExchangeState) (u : Nat) (pair : TradingPair) (side : String)
      (price amount : ℚ), price ≤ 0 →
      validate st u pair side "MARKET" price amount ≠ .ok ()) ∧
    (∀ (st : ExchangeState) (u : Nat) (pair : TradingPair) (side : String)
      (price amount : ℚ), price ≤ 0 → pair.is_active = true →
      (side = "BUY" ∨ side = "SELL") → 0 < amount →
      validate st u pair side "MARKET" price amount =
        .error (.invalidOrder "Min order value")) ∧
    (∀ (st : ExchangeState) (o : Order) (t : String),
      find_matches st { o with order_type := t } = find_matches st o) ∧
    (lockedOf (run_place_order stC9 3 PW "BUY" "MARKET" 20 1).1 3 "USDT" = 0 ∧
     lockedOf (run_place_order stC9 3 PW "BUY" "MARKET" 19 1).1 3 "USDT" = 19 ∧
     (run_place_order stC9 3 PW "BUY" "MARKET" 20 1).1.trades ≠
       (run_place_order stC9 3 PW "BUY" "MARKET" 19 1).1.trades) := by
  refine ⟨?_, ?_, ?_, ?_, ?_⟩
  · intro st u pair side price amount hp
    unfold validate
    rw [if_neg (show ¬¬("MARKET" = "LIMIT" ∨ "MARKET" = "MARKET") by decide)]
    rw [if_neg (show ¬¬("LIMIT" = "LIMIT" ∨ "LIMIT" = "MARKET") by decide)]
    rw [if_neg (show ¬("MARKET" = "LIMIT" ∧ price ≤ 0) from
      fun hc => absurd hc.1 (by decide))]
    rw [if_neg (show ¬("LIMIT" = "LIMIT" ∧ price ≤ 0) from
      fun hc => absurd hc.2 (not_le.mpr hp))]
  · intro st u pair side price amount hp
    unfold validate
    split
    · simp
    split
    · simp
    split
    · simp
    split
    · simp
    split
    · simp
    next hamount =>
      dsimp only
      have hlt : price * amount < MIN_ORDER_VALUE := by
        have h0 := not_le.mp hamount
        unfold MIN_ORDER_VALUE
        nlinarith
      rw [if_pos hlt]
      simp
  · intro st u pair side price amount hp hactive hside hamount
    unfold validate
    rw [if_neg (by simp [hactive])]
    rw [if_neg (not_not_intro hside)]
    rw [if_neg (show ¬¬("MARKET" = "LIMIT" ∨ "MARKET" = "MARKET") by decide)]
    rw [if_neg (show ¬("MARKET" = "LIMIT" ∧ price ≤ 0) from
      fun hc => absurd hc.1 (by decide))]
    rw [if_neg (not_le.mpr hamount)]
    dsimp only
    have hlt : price * amount < MIN_ORDER_VALUE := by
      unfold MIN_ORDER_VALUE
      nlinarith
    rw [if_pos hlt]
  · intro st o t
    rfl
  · refine ⟨?_, ?_, ?_⟩ <;> with_unfolding_all decide

/-- Witness for C9 at concrete inputs. -/
theorem C9_market_uses_price_witness :
    validate stC9 3 PW "BUY" "MARKET" 20 1 =
      validate stC9 3 PW "BUY" "LIMIT" 20 1 ∧
    validate stC9 3 PW "BUY" "MARKET" 0 1 ≠ .ok () ∧
    validate stC9 3 PW "BUY" "MARKET" 0 1 =
      .error (.invalidOrder "Min order value") ∧
    lockedOf (run_place_order stC9 3 PW "BUY" "MARKET" 19 1).1 3 "USDT" = 19 :=
  ⟨C9_market_uses_price.1 stC9 3 PW "BUY" 20 1 (by norm_num),
   C9_market_uses_price.2.1 stC9 3 PW "BUY" 0 1 (by norm_num),
   C9_market_uses_price.2.2.1 stC9 3 PW "BUY" 0 1 (by norm_num) rfl
     (Or.inl rfl) (by norm_num),
   C9_market_uses_price.2.2.2.2.2.1⟩

/-! ### C6: MARKET orders are price-gated exactly like LIMIT orders -/

/-- A MARKET BUY taker with supplied price 19 against the book of `stC9`
(which rests an OPEN SELL at 20). -/
def ordC6 : Order := ⟨2, 3, PW, "BUY", "MARKET", 19, 1, 0, "OPEN", 1⟩

/-- Counterexample to C6 as stated: a MARKET BUY taker with unexhausted
amount (`filled_amount = 0 < 1 = amount`) faces a nonempty OPEN opposite
book, yet `find_matches` offers no candidate and `match_order` executes no
trade — the supplied price 19 gates out the resting SELL at 20. -/
theorem C6_counterexample :
    ordC6.order_type = "MARKET" ∧
    ordC6.filled_amount < ordC6.amount ∧
    stC9.orders.filter (fun m => m.pair.symbol == ordC6.pair.symbol &&
      m.side == "SELL" && m.status == "OPEN") ≠ [] ∧
    find_matches stC9 ordC6 = [] ∧
    match_order stC9 ordC6 = .ok (stC9, ordC6, 0) := by
  refine ⟨rfl, ?_, ?_, ?_, ?_⟩ <;> with_unfolding_all decide

/-- **C6 (amended)**: MARKET orders are matched identically to LIMIT
orders — `find_matches` never reads `order_type`, and every candidate is
gated by the supplied price: SELL makers with `price ≤ taker.price` for a
BUY taker, BUY makers with `price ≥ taker.price` otherwise.  A MARKET order
whose supplied price crosses nothing fills nothing. -/
theorem C6_market_gated :
    ∀ (st : ExchangeState) (o : Order) (t : String),
      (find_matches st { o with order_type := t } = find_matches st o) ∧
      (o.side = "BUY" → ∀ m ∈ find_matches st o, m.price ≤ o.price) ∧
      (o.side ≠ "BUY" → ∀ m ∈ find_matches st o, o.price ≤ m.price) := by
  intro st o t
  refine ⟨rfl, ?_, ?_⟩
  · intro hside m hm
    unfold find_matches at hm
    rw [if_pos hside] at hm
    rw [List.mem_insertionSort, List.mem_filter] at hm
    exact of_decide_eq_true hm.2
  · intro hside m hm
    unfold find_matches at hm
    rw [if_neg hside] at hm
    rw [List.mem_insertionSort, List.mem_filter] at hm
    exact of_decide_eq_true hm.2

/-- A LIMIT BUY taker at 20 against the book of `stC9`. -/
def ordC6b : Order := ⟨2, 3, PW, "BUY", "LIMIT", 20, 1, 0, "OPEN", 1⟩

/-- Witness for the amended C6: the MARKET copy of a BUY taker sees exactly
the same candidates, and the candidate's price respects the gate. -/
theorem C6_market_gated_witness :
    find_matches stC9 { ordC6b with order_type := "MARKET" } =
      find_matches stC9 ordC6b ∧
    (⟨1, 2, PW, "SELL", "LIMIT", 20, 1, 0, "OPEN", 0⟩ : Order).price ≤
      ordC6b.price :=
  ⟨(C6_market_gated stC9 ordC6b "MARKET").1,
   (C6_market_gated stC9 ordC6b "MARKET").2.1 rfl
     ⟨1, 2, PW, "SELL", "LIMIT", 20, 1, 0, "OPEN", 0⟩
     (by with_unfolding_all decide)⟩

/-! ### Facts extracted from successful validation and from the candidate
query -/

theorem validate_ok_facts {st : ExchangeState} {u : Nat} {pair : TradingPair}
    {side order_type : String} {price amount : ℚ}
    (h : validate st u pair side order_type price amount = .ok ()) :
    pair.is_active = true ∧ (side = "BUY" ∨ side = "SELL") ∧
    (order_type = "LIMIT" ∨ order_type = "MARKET") ∧
    (order_type = "LIMIT" → 0 < price) ∧ 0 < amount := by
  unfold validate at h
  split at h
  · exact absurd h (by simp)
  next hactive =>
    split at h
    · exact absurd h (by simp)
    next hside =>
      split at h
      · exact absurd h (by simp)
      next htype =>
        split at h
        · exact absurd h (by simp)
        next hlim =>
          split at h
          · exact absurd h (by simp)
          next hamount =>
            refine ⟨?_, not_not.mp hside, not_not.mp htype, ?_, not_le.mp hamount⟩
            · by_cases hb : pair.is_active
              · exact hb
              · exact absurd hb hactive
            · intro hl
              by_cases hp : 0 < price
              · exact hp
              · exact absurd ⟨hl, not_lt.mp hp⟩ hlim

theorem mem_find_matches {st : ExchangeState} {o m : Order}
    (hm : m ∈ find_matches st o) :
    m ∈ st.orders ∧ m.pair.symbol = o.pair.symbol ∧
    m.side = (if o.side = "BUY" then "SELL" else "BUY") ∧
    m.status = "OPEN" ∧
    (if o.side = "BUY" then m.price ≤ o.price else o.price ≤ m.price) := by
  unfold find_matches at hm
  by_cases hside : o.side = "BUY"
  · rw [if_pos hside] at hm
    rw [List.mem_insertionSort, List.mem_filter, List.mem_filter] at hm
    obtain ⟨⟨hmem, hbase⟩, hgate⟩ := hm
    simp only [Bool.and_eq_true, beq_iff_eq] at hbase
    exact ⟨hmem, hbase.1.1, hbase.1.2, hbase.2,
      by rw [if_pos hside]; exact of_decide_eq_true hgate⟩
  · rw [if_neg hside] at hm
    rw [List.mem_insertionSort, List.mem_filter, List.mem_filter] at hm
    obtain ⟨⟨hmem, hbase⟩, hgate⟩ := hm
    simp only [Bool.and_eq_true, beq_iff_eq] at hbase
    exact ⟨hmem, hbase.1.1, hbase.1.2, hbase.2,
      by rw [if_neg hside]; exact of_decide_eq_true hgate⟩

/-! ### C10: order statuses reachable through the public interface -/

/-- A status reachable through the public interface. -/
def StatusOk (s : String) : Prop :=
  s = "OPEN" ∨ s = "FILLED" ∨ s = "CANCELLED"

/-- Every stored order has a public-interface status (never PENDING). -/
def StatusInv (st : ExchangeState) : Prop :=
  ∀ o ∈ st.orders, StatusOk o.status

theorem fillUpd_status (o : Order) (qty : ℚ) :
    (fillUpd o qty).status = "FILLED" ∨ (fillUpd o qty).status = o.status := by
  unfold fillUpd
  split
  · exact Or.inl rfl
  · exact Or.inr rfl

theorem StatusInv_congr {st st' : ExchangeState}
    (h : st'.orders = st.orders) (hinv : StatusInv st) : StatusInv st' :=
  fun o ho => hinv o (h ▸ ho)

theorem execute_match_status {st : ExchangeState} {taker maker : Order}
    {qty : ℚ} {r : ExchangeState × Order × Order}
    (h : execute_match st taker maker qty = .ok r)
    (hinv : StatusInv st) (ht : StatusOk taker.status)
    (hm : StatusOk maker.status) : StatusInv r.1 := by
  obtain ⟨st₁, st₂, h₁, h₂, hw, ho, -⟩ := execute_match_ok h
  intro y hy
  rw [ho, (transfer_locked_meta h₂).1, (transfer_locked_meta h₁).1] at hy
  rcases mem_updateFirst y hy with hy' | ⟨x, hx, -, hyx⟩
  · rcases mem_updateFirst y hy' with hy'' | ⟨x, hx, -, hyx⟩
    · exact hinv y hy''
    · subst hyx
      rcases fillUpd_status taker qty with hs | hs <;> rw [hs]
      · exact Or.inr (Or.inl rfl)
      · exact ht
  · subst hyx
    rcases fillUpd_status maker qty with hs | hs <;> rw [hs]
    · exact Or.inr (Or.inl rfl)
    · exact hm

theorem match_loop_status :
    ∀ {makers : List Order} {st : ExchangeState} {taker : Order} {n : Nat}
      {r : ExchangeState × Order × Nat},
      match_loop st taker makers n = .ok r → StatusInv st →
      StatusOk taker.status → (∀ m ∈ makers, StatusOk m.status) →
      StatusInv r.1
  | [], st, taker, n, r, h, hinv, ht, hms => by
    unfold match_loop at h
    injection h with h
    exact StatusInv_congr (congrArg ExchangeState.orders
      (congrArg Prod.fst h.symm)) hinv
  | maker :: rest, st, taker, n, r, h, hinv, ht, hms => by
    unfold match_loop at h
    dsimp only at h
    split at h
    · injection h with h
      exact StatusInv_congr (congrArg ExchangeState.orders
        (congrArg Prod.fst h.symm)) hinv
    · split at h
      · exact absurd h (by simp)
      next r' hexec =>
        obtain ⟨-, -, -, -, -, -, -, -, -, ht₂, -⟩ := execute_match_ok hexec
        refine match_loop_status h
          (execute_match_status hexec hinv ht
            (hms maker (List.mem_cons_self maker rest))) ?_
          (fun m hm => hms m (List.mem_cons_of_mem maker hm))
        rw [ht₂]
        rcases fillUpd_status taker _ with hs | hs <;> rw [hs]
        · exact Or.inr (Or.inl rfl)
        · exact ht

theorem fillUpd_fields (o : Order) (q : ℚ) :
    (fillUpd o q).id = o.id ∧ (fillUpd o q).user_id = o.user_id ∧
    (fillUpd o q).pair = o.pair ∧ (fillUpd o q).side = o.side ∧
    (fillUpd o q).order_type = o.order_type ∧
    (fillUpd o q).price = o.price ∧ (fillUpd o q).amount = o.amount ∧
    (fillUpd o q).created_at = o.created_at := by
  unfold fillUpd
  split <;> exact ⟨rfl, rfl, rfl, rfl, rfl, rfl, rfl, rfl⟩

theorem match_loop_taker :
    ∀ {makers : List Order} {st : ExchangeState} {taker : Order} {n : Nat}
      {r : ExchangeState × Order × Nat},
      match_loop st taker makers n = .ok r →
      taker.filled_amount ≤ taker.amount →
      (taker.status = "OPEN" ∨
        (taker.status = "FILLED" ∧ taker.filled_amount = taker.amount)) →
      (r.2.1.filled_amount ≤ r.2.1.amount ∧
       (r.2.1.status = "OPEN" ∨
         (r.2.1.status = "FILLED" ∧ r.2.1.filled_amount = r.2.1.amount)) ∧
       r.2.1.id = taker.id ∧ r.2.1.user_id = taker.user_id ∧
       r.2.1.pair = taker.pair ∧ r.2.1.side = taker.side ∧
       r.2.1.order_type = taker.order_type ∧ r.2.1.price = taker.price ∧
       r.2.1.amount = taker.amount ∧ r.2.1.created_at = taker.created_at)
  | [], st, taker, n, r, h, hle, hst => by
    unfold match_loop at h
    injection h with h
    rw [← h]
    exact ⟨hle, hst, rfl, rfl, rfl, rfl, rfl, rfl, rfl, rfl⟩
  | maker :: rest, st, taker, n, r, h, hle, hst => by
    unfold match_loop at h
    dsimp only at h
    split at h
    · injection h with h
      rw [← h]
      exact ⟨hle, hst, rfl, rfl, rfl, rfl, rfl, rfl, rfl, rfl⟩
    next hrem =>
      split at h
      · exact absurd h (by simp)
      next r' hexec =>
        obtain ⟨st₁, st₂, h₁, h₂, -, -, -, -, -, ht₂, -⟩ :=
          execute_match_ok hexec
        set q : ℚ := (taker.amount - taker.filled_amount) ⊓
          (maker.amount - maker.filled_amount) with hqdef
        have hq : q ≤ taker.amount - taker.filled_amount := min_le_left _ _
        have hle' : r'.2.1.filled_amount ≤ r'.2.1.amount := by
          rw [ht₂]
          unfold fillUpd
          split <;> dsimp <;> linarith
        have hst' : r'.2.1.status = "OPEN" ∨ (r'.2.1.status = "FILLED" ∧
            r'.2.1.filled_amount = r'.2.1.amount) := by
          rw [ht₂]
          unfold fillUpd
          split
          next hfull =>
            refine Or.inr ⟨rfl, ?_⟩
            dsimp at hfull ⊢
            linarith
          next hnot =>
            dsimp
            rcases hst with hs | ⟨hs, hfl⟩
            · exact Or.inl hs
            · exact absurd (show taker.amount - taker.filled_amount ≤ 0 by
                rw [hfl]; simp) hrem
        have ih := match_loop_taker h hle' hst'
        obtain ⟨f1, f2, f3, f4, f5, f6, f7, f8⟩ := fillUpd_fields taker q
        exact ⟨ih.1, ih.2.1,
          ih.2.2.1.trans (by rw [ht₂]; exact f1),
          ih.2.2.2.1.trans (by rw [ht₂]; exact f2),
          ih.2.2.2.2.1.trans (by rw [ht₂]; exact f3),
          ih.2.2.2.2.2.1.trans (by rw [ht₂]; exact f4),
          ih.2.2.2.2.2.2.1.trans (by rw [ht₂]; exact f5),
          ih.2.2.2.2.2.2.2.1.trans (by rw [ht₂]; exact f6),
          ih.2.2.2.2.2.2.2.2.1.trans (by rw [ht₂]; exact f7),
          ih.2.2.2.2.2.2.2.2.2.trans (by rw [ht₂]; exact f8)⟩

theorem place_order_status {st : ExchangeState} {u : Nat}
    {pair : TradingPair} {side order_type : String} {price amount : ℚ}
    {r : ExchangeState × Order}
    (h : place_order st u pair side order_type price amount = .ok r)
    (hinv : StatusInv st) : StatusInv r.1 := by
  unfold place_order at h
  dsimp only at h
  split at h
  · exact absurd h (by simp)
  · split at h
    · exact absurd h (by simp)
    next locked hlock =>
      split at h
      · exact absurd h (by simp)
      next r' hmatch =>
        injection h with h
        obtain ⟨stL, wL⟩ := locked
        have hordL : stL.orders = st.orders := by
          split at hlock
          · obtain ⟨-, w, -, -, hst⟩ := lock_balance_ok hlock
            rw [hst]; rfl
          · obtain ⟨-, w, -, -, hst⟩ := lock_balance_ok hlock
            rw [hst]; rfl
        have hinv₂ : StatusInv { stL with
            orders := stL.orders ++ [⟨stL.next_order_id, u, pair, side,
              order_type, price, amount, 0, "OPEN", stL.clock⟩],
            next_order_id := stL.next_order_id + 1,
            clock := stL.clock + 1 } := by
          intro y hy
          rcases List.mem_append.mp hy with hy' | hy'
          · exact hinv y (hordL ▸ hy')
          · rw [List.mem_singleton.mp hy']
            exact Or.inl rfl
        have hres := match_loop_status hmatch hinv₂ (Or.inl rfl)
          (fun m hm => Or.inl (mem_find_matches hm).2.2.2.1)
        exact StatusInv_congr (congrArg ExchangeState.orders
          (congrArg Prod.fst h.symm)) hres

theorem place_order_taker {st : ExchangeState} {u : Nat}
    {pair : TradingPair} {side order_type : String} {price amount : ℚ}
    {r : ExchangeState × Order}
    (h : place_order st u pair side order_type price amount = .ok r) :
    (r.2.status = "OPEN" ∨
      (r.2.status = "FILLED" ∧ r.2.filled_amount = r.2.amount)) ∧
    r.2.filled_amount ≤ r.2.amount ∧ r.2.user_id = u ∧ r.2.pair = pair ∧
    r.2.side = side ∧ r.2.order_type = order_type ∧ r.2.price = price ∧
    r.2.amount = amount := by
  unfold place_order at h
  dsimp only at h
  split at h
  · exact absurd h (by simp)
  next hval =>
    split at h
    · exact absurd h (by simp)
    next locked hlock =>
      split at h
      · exact absurd h (by simp)
      next r' hmatch =>
        injection h with h
        obtain ⟨-, -, -, -, hamount⟩ := validate_ok_facts hval
        have ih := match_loop_taker hmatch
          (by dsimp; linarith) (Or.inl rfl)
        rw [← h]
        exact ⟨ih.2.1, ih.1, ih.2.2.2.1, ih.2.2.2.2.1, ih.2.2.2.2.2.1,
          ih.2.2.2.2.2.2.1, ih.2.2.2.2.2.2.2.1, ih.2.2.2.2.2.2.2.2.1⟩

theorem cancel_order_status {st : ExchangeState} {u oid : Nat}
    {r : ExchangeState × Order}
    (h : cancel_order st u oid = .ok r) (hinv : StatusInv st) :
    StatusInv r.1 := by
  unfold cancel_order at h
  dsimp only at h
  split at h
  · exact absurd h (by simp)
  next order hfind =>
    split at h
    · exact absurd h (by simp)
    split at h
    · exact absurd h (by simp)
    split at h
    · exact absurd h (by simp)
    next st₁ hstep =>
      injection h with h
      have hord₁ : st₁.orders = st.orders := by
        split at hstep
        · split at hstep
          · exact absurd hstep (by simp)
          next r₁ hunlock =>
            injection hstep with hstep
            rw [← hstep]
            split at hunlock
            · obtain ⟨-, w, -, -, hst⟩ := unlock_balance_ok hunlock
              rw [hst]; rfl
            · obtain ⟨-, w, -, -, hst⟩ := unlock_balance_ok hunlock
              rw [hst]; rfl
        · injection hstep with hstep
          rw [← hstep]
      have : StatusInv { st₁ with
          orders := updateFirst (fun o => o.id == oid)
            (fun _ => { order with status := "CANCELLED" }) st₁.orders } := by
        intro y hy
        dsimp at hy
        rcases mem_updateFirst y hy with hy' | ⟨x, -, -, hyx⟩
        · exact hinv y (hord₁ ▸ hy')
        · rw [hyx]
          exact Or.inr (Or.inr rfl)
      exact StatusInv_congr (congrArg ExchangeState.orders
        (congrArg Prod.fst h.symm)) this

/-- **C10** (implicit): the PENDING status is unreachable through the public
interface.  Orders inserted by `place_order` carry status OPEN and
`filled_amount 0`; matching only moves a status to FILLED (exactly when
`filled_amount` reaches `amount`) and `cancel_order` only to CANCELLED, so
any state whose orders avoid PENDING keeps avoiding it across every
sequence of public operations, and deposits/withdrawals never touch
orders. -/
theorem C10_no_pending :
    (∀ (st : ExchangeState) (ops : List Op), StatusInv st →
      StatusInv (applyOps st ops)) ∧
    (∀ (st : ExchangeState) (u : Nat) (c : String) (amt : ℚ)
      (r : ExchangeState × Wallet), deposit st u c amt = .ok r →
      r.1.orders = st.orders) ∧
    (∀ (st : ExchangeState) (u : Nat) (c : String) (amt : ℚ)
      (r : ExchangeState × Wallet), withdraw st u c amt = .ok r →
      r.1.orders = st.orders) ∧
    (∀ (st : ExchangeState) (u : Nat) (pair : TradingPair)
      (side order_type : String) (price amount : ℚ)
      (r : ExchangeState × Order),
      place_order st u pair side order_type price amount = .ok r →
      (r.2.status = "OPEN" ∨
        (r.2.status = "FILLED" ∧ r.2.filled_amount = r.2.amount)) ∧
      r.2.filled_amount ≤ r.2.amount) := by
  refine ⟨?_, ?_, ?_, ?_⟩
  · intro st ops
    induction ops generalizing st with
    | nil => exact fun hinv => hinv
    | cons op ops ih =>
      intro hinv
      show StatusInv (applyOps (applyOp st op) ops)
      refine ih (applyOp st op) ?_
      cases op with
      | place u pair side order_type price amount =>
        show StatusInv (run_place_order st u pair side order_type price amount).1
        unfold run_place_order
        cases h : place_order st u pair side order_type price amount with
        | error e => exact hinv
        | ok r =>
          obtain ⟨st', o⟩ := r
          exact place_order_status h hinv
      | cancel u oid =>
        show StatusInv (run_cancel_order st u oid).1
        unfold run_cancel_order
        cases h : cancel_order st u oid with
        | error e => exact hinv
        | ok r =>
          obtain ⟨st', o⟩ := r
          exact cancel_order_status h hinv
  · intro st u c amt r h
    obtain ⟨-, hst⟩ := deposit_ok h
    rw [hst]
    exact (get_or_create_meta st u c).1
  · intro st u c amt r h
    obtain ⟨-, w, -, -, hst⟩ := withdraw_ok h
    rw [hst]; rfl
  · intro st u pair side order_type price amount r h
    exact ⟨(place_order_taker h).1, (place_order_taker h).2.1⟩

/-- The OPEN order inserted by the C10 witness placement. -/
def ordC10 : Order := ⟨2, 3, PW, "BUY", "LIMIT", 19, 1, 0, "OPEN", 1⟩

/-- The state after the C10 witness placement (BUY at 19 crosses nothing). -/
def stC10res : ExchangeState :=
  ⟨[⟨2, "BTC", 1, 1⟩, ⟨3, "USDT", 20, 19⟩],
   [⟨1, 2, PW, "SELL", "LIMIT", 20, 1, 0, "OPEN", 0⟩, ordC10],
   3, 2, []⟩

/-- Witness for C10 at concrete inputs: a placement sequence keeps all
statuses in the public set, and a concrete placed order comes back OPEN. -/
theorem C10_no_pending_witness :
    StatusInv (applyOps stC9 [Op.place 3 PW "BUY" "LIMIT" 19 1,
      Op.cancel 2 1]) ∧
    (ordC10.status = "OPEN" ∨ (ordC10.status = "FILLED" ∧
      ordC10.filled_amount = ordC10.amount)) ∧
    ordC10.filled_amount ≤ ordC10.amount :=
  ⟨C10_no_pending.1 stC9 [Op.place 3 PW "BUY" "LIMIT" 19 1, Op.cancel 2 1]
    (by unfold StatusInv StatusOk; with_unfolding_all decide),
   C10_no_pending.2.2.2 stC9 3 PW "BUY" "LIMIT" 19 1 (stC10res, ordC10)
     (by with_unfolding_all decide)⟩

/-! ### C5: price-time-id priority of the candidate query -/

instance : IsTotal Order buyLe :=
  ⟨fun a b => by
    unfold buyLe
    rcases lt_trichotomy a.price b.price with h | h | h
    · exact Or.inl (Or.inl h)
    · rcases Nat.le_total a.created_at b.created_at with hc | hc
      · exact Or.inl (Or.inr ⟨h, hc⟩)
      · exact Or.inr (Or.inr ⟨h.symm, hc⟩)
    · exact Or.inr (Or.inl h)⟩

instance : IsTrans Order buyLe :=
  ⟨fun a b c hab hbc => by
    unfold buyLe at hab hbc ⊢
    rcases hab with h₁ | ⟨h₁, hc₁⟩ <;> rcases hbc with h₂ | ⟨h₂, hc₂⟩
    · exact Or.inl (h₁.trans h₂)
    · exact Or.inl (h₂ ▸ h₁)
    · exact Or.inl (h₁ ▸ h₂)
    · exact Or.inr ⟨h₁.trans h₂, hc₁.trans hc₂⟩⟩

instance : IsTotal Order sellLe :=
  ⟨fun a b => by
    unfold sellLe
    rcases lt_trichotomy a.price b.price with h | h | h
    · exact Or.inr (Or.inl h)
    · rcases Nat.le_total a.created_at b.created_at with hc | hc
      · exact Or.inl (Or.inr ⟨h, hc⟩)
      · exact Or.inr (Or.inr ⟨h.symm, hc⟩)
    · exact Or.inl (Or.inl h)⟩

instance : IsTrans Order sellLe :=
  ⟨fun a b c hab hbc => by
    unfold sellLe at hab hbc ⊢
    rcases hab with h₁ | ⟨h₁, hc₁⟩ <;> rcases hbc with h₂ | ⟨h₂, hc₂⟩
    · exact Or.inl (h₂.trans h₁)
    · exact Or.inl (h₂ ▸ h₁)
    · exact Or.inl (h₁.symm ▸ h₂)
    · exact Or.inr ⟨h₁.trans h₂, hc₁.trans hc₂⟩⟩

/-- Contract of the source's `order_by` queryset, written from the spec/DB
side for comparison with the executable `find_matches`: the database returns
some permutation of the filtered rows that is pairwise-sorted on the given
sort keys, and the relative order of rows tied on every key is left
unspecified. -/
def orderByResult (key : Order → Order → Prop) (base l : List Order) : Prop :=
  base.Perm l ∧ l.Pairwise key

/-- Book with a price tie (two SELLs at 20 sharing `created_at`) on top of a
better-priced SELL at 15, plus a CANCELLED row. -/
def stC5 : ExchangeState :=
  ⟨[],
   [⟨1, 2, PW, "SELL", "LIMIT", 20, 1, 0, "OPEN", 5⟩,
    ⟨2, 4, PW, "SELL", "LIMIT", 20, 1, 0, "OPEN", 5⟩,
    ⟨3, 5, PW, "SELL", "LIMIT", 15, 1, 0, "OPEN", 7⟩,
    ⟨4, 6, PW, "SELL", "LIMIT", 12, 1, 0, "CANCELLED", 8⟩],
   5, 9, []⟩

/-- BUY taker at 20 against `stC5`. -/
def ordC5 : Order := ⟨5, 3, PW, "BUY", "LIMIT", 20, 2, 0, "OPEN", 9⟩

/-- First of the two `stC5` SELL rows tied on price and `created_at`. -/
def ordTieA : Order := ⟨1, 2, PW, "SELL", "LIMIT", 20, 1, 0, "OPEN", 5⟩

/-- Second tied `stC5` SELL row, with the larger id. -/
def ordTieB : Order := ⟨2, 4, PW, "SELL", "LIMIT", 20, 1, 0, "OPEN", 5⟩

/-- The better-priced `stC5` SELL row. -/
def ordCheap : Order := ⟨3, 5, PW, "SELL", "LIMIT", 15, 1, 0, "OPEN", 7⟩

/-- Counterexample to C5 as stated: the source iterates the candidates as an
`order_by` result on the keys price and `created_at` only — the query has no
`id` key.  For the taker `ordC5` the list `[ordCheap, ordTieB, ordTieA]` is
a permutation of the program's candidate set that is sorted on both query
keys, yet the two rows tied on price and `created_at` appear with id 2
before id 1, so no id-ascending final tie-break is guaranteed. -/
theorem C5_counterexample :
    orderByResult buyLe (find_matches stC5 ordC5)
      [ordCheap, ordTieB, ordTieA] ∧
    ¬ ([ordCheap, ordTieB, ordTieA].Pairwise fun a b => a.id < b.id) := by
  have he : find_matches stC5 ordC5 = [ordCheap, ordTieA, ordTieB] := by
    with_unfolding_all decide
  refine ⟨⟨?_, ?_⟩, ?_⟩
  · rw [he]
    exact List.Perm.cons ordCheap (List.Perm.swap ordTieB ordTieA [])
  · with_unfolding_all decide
  · with_unfolding_all decide

/-- **C5** (amended, price-time priority): the candidates `find_matches`
returns for a taker are exactly the OPEN opposite-side orders of the same
pair crossing the taker's price, iterated as an `order_by` result on the
keys of the source's query: a permutation of the filtered candidates
pairwise-sorted by best price first (ascending for a BUY taker, descending
for a SELL taker), then `created_at` ascending.  The query has no `id` sort
key, so the relative order of candidates tied on both keys is unspecified
and no id-ascending tie-break is guaranteed (see the counterexample). -/
theorem C5_price_time_order :
    ∀ (st : ExchangeState) (o : Order),
      (∀ m, m ∈ find_matches st o ↔ (m ∈ st.orders ∧
        m.pair.symbol = o.pair.symbol ∧
        m.side = (if o.side = "BUY" then "SELL" else "BUY") ∧
        m.status = "OPEN" ∧
        (if o.side = "BUY" then m.price ≤ o.price else o.price ≤ m.price))) ∧
      (o.side = "BUY" → orderByResult buyLe
        ((st.orders.filter fun m => m.pair.symbol == o.pair.symbol &&
            m.side == (if o.side = "BUY" then "SELL" else "BUY") &&
            m.status == "OPEN").filter
          fun m => decide (m.price ≤ o.price))
        (find_matches st o)) ∧
      (o.side ≠ "BUY" → orderByResult sellLe
        ((st.orders.filter fun m => m.pair.symbol == o.pair.symbol &&
            m.side == (if o.side = "BUY" then "SELL" else "BUY") &&
            m.status == "OPEN").filter
          fun m => decide (o.price ≤ m.price))
        (find_matches st o)) := by
  intro st o
  refine ⟨?_, ?_, ?_⟩
  · intro m
    constructor
    · exact mem_find_matches
    · rintro ⟨hmem, hsym, hside, hstatus, hgate⟩
      unfold find_matches
      by_cases hbuy : o.side = "BUY"
      · rw [if_pos hbuy, List.mem_insertionSort, List.mem_filter,
          List.mem_filter]
        rw [if_pos hbuy] at hgate
        refine ⟨⟨hmem, ?_⟩, decide_eq_true hgate⟩
        simp only [Bool.and_eq_true, beq_iff_eq]
        exact ⟨⟨hsym, hside⟩, hstatus⟩
      · rw [if_neg hbuy, List.mem_insertionSort, List.mem_filter,
          List.mem_filter]
        rw [if_neg hbuy] at hgate
        refine ⟨⟨hmem, ?_⟩, decide_eq_true hgate⟩
        simp only [Bool.and_eq_true, beq_iff_eq]
        exact ⟨⟨hsym, hside⟩, hstatus⟩
  · intro hbuy
    unfold find_matches
    dsimp only
    rw [if_pos hbuy, if_pos hbuy]
    exact ⟨(List.perm_insertionSort buyLe _).symm,
      List.sorted_insertionSort buyLe _⟩
  · intro hbuy
    unfold find_matches
    dsimp only
    rw [if_neg hbuy, if_neg hbuy]
    exact ⟨(List.perm_insertionSort sellLe _).symm,
      List.sorted_insertionSort sellLe _⟩

/-- Witness for the amended C5: at the concrete book `stC5` and BUY taker
`ordC5`, membership is settled for the cheaper SELL and the returned
candidate list is an `order_by` result on (price, `created_at`). -/
theorem C5_price_time_order_witness :
    (ordCheap ∈ find_matches stC5 ordC5 ↔ (ordCheap ∈ stC5.orders ∧
      ordCheap.pair.symbol = ordC5.pair.symbol ∧
      ordCheap.side = (if ordC5.side = "BUY" then "SELL" else "BUY") ∧
      ordCheap.status = "OPEN" ∧
      (if ordC5.side = "BUY" then ordCheap.price ≤ ordC5.price
       else ordC5.price ≤ ordCheap.price))) ∧
    orderByResult buyLe
      ((stC5.orders.filter fun m => m.pair.symbol == ordC5.pair.symbol &&
          m.side == (if ordC5.side = "BUY" then "SELL" else "BUY") &&
          m.status == "OPEN").filter
        fun m => decide (m.price ≤ ordC5.price))
      (find_matches stC5 ordC5) :=
  ⟨(C5_price_time_order stC5 ordC5).1 ordCheap,
   (C5_price_time_order stC5 ordC5).2.1 (by with_unfolding_all decide)⟩


/-! ### C3: locked balances versus open-order obligations -/

/-- Unfilled obligation of one order in (uppercased) currency `c`: a BUY
reserves `price * (amount - filled_amount)` of the quote currency, a SELL
reserves `amount - filled_amount` of the base currency; only OPEN orders
count. -/
def obligation (c : String) (o : Order) : ℚ :=
  if o.status = "OPEN" then
    (if o.side = "BUY" ∧ c = o.pair.quote_currency.toUpper then
      o.price * (o.amount - o.filled_amount) else 0) +
    (if o.side = "SELL" ∧ c = o.pair.base_currency.toUpper then
      o.amount - o.filled_amount else 0)
  else 0

/-- Sum of unfilled obligations of user `u` in currency `c` over an order
list. -/
def obligations (l : List Order) (u : Nat) (c : String) : ℚ :=
  (l.map fun o => if u = o.user_id then obligation c o else 0).sum

/-- Price-improvement residual one trade leaves in the buyer's quote
wallet: the buy order reserved at its limit price but settled at the maker
price. -/
def residualOf (u : Nat) (c : String) (t : Trade) : ℚ :=
  if u = t.buyer_id ∧ c = t.quote_currency.toUpper then
    (t.buy_price - t.price) * t.qty else 0

/-- Accumulated price-improvement residual of user `u` in currency `c`. -/
def residualTotal (ts : List Trade) (u : Nat) (c : String) : ℚ :=
  (ts.map (residualOf u c)).sum

/-- The amended P3: every locked balance equals open obligations plus the
accumulated price-improvement residual. -/
def LockedObl (st : ExchangeState) : Prop :=
  ∀ u c, lockedOf st u c =
    obligations st.orders u c + residualTotal st.trades u c

/-- Structural well-formedness of the order store: rows in strictly
increasing id order, ids below the sequence counter, and OPEN orders not
overfilled. -/
def OrdersWF (st : ExchangeState) : Prop :=
  st.orders.Pairwise (fun a b => a.id < b.id) ∧
  (∀ o ∈ st.orders, o.id < st.next_order_id) ∧
  (∀ o ∈ st.orders, o.status = "OPEN" → o.filled_amount ≤ o.amount) ∧
  (∀ o ∈ st.orders, o.side = "BUY" ∨ o.side = "SELL")

/-- The state invariant the amended C3 preserves. -/
def ExchangeInv (st : ExchangeState) : Prop :=
  OrdersWF st ∧ StatusInv st ∧ LockedObl st

/-- Funded two-user state: seller 2 holds 1 BTC, buyer 1 holds 30 USDT. -/
def stqInit : ExchangeState :=
  ⟨[⟨2, "BTC", 1, 0⟩, ⟨1, "USDT", 30, 0⟩], [], 1, 0, []⟩

/-- Counterexample to C3 as stated: user 2 places SELL 1 BTC @ 20, user 1
places BUY 1 BTC @ 30.  The trade executes at the maker price 20, both
orders are FILLED, so user 1 has no OPEN obligations in USDT — yet 10 USDT
(the price-improvement residual `(30 - 20) * 1`) remains locked. -/
theorem C3_counterexample :
    lockedOf (applyOps stqInit [Op.place 2 PW "SELL" "LIMIT" 20 1,
      Op.place 1 PW "BUY" "LIMIT" 30 1]) 1 "USDT" = 10 ∧
    obligations (applyOps stqInit [Op.place 2 PW "SELL" "LIMIT" 20 1,
      Op.place 1 PW "BUY" "LIMIT" 30 1]).orders 1 "USDT" = 0 ∧
    residualTotal (applyOps stqInit [Op.place 2 PW "SELL" "LIMIT" 20 1,
      Op.place 1 PW "BUY" "LIMIT" 30 1]).trades 1 "USDT" = 10 := by
  refine ⟨?_, ?_, ?_⟩ <;> with_unfolding_all decide

theorem mem_updateFirst_self {p : α → Bool} {f : α → α} :
    ∀ {l : List α} {x : α}, l.find? p = some x → f x ∈ updateFirst p f l
  | [], x, h => by simp at h
  | y :: ys, x, h => by
    by_cases hy : p y
    · rw [List.find?_cons_of_pos _ hy] at h
      injection h with h
      subst h
      simp [updateFirst, if_pos hy]
    · rw [List.find?_cons_of_neg _ hy] at h
      simp only [updateFirst, if_neg hy]
      exact List.mem_cons_of_mem _ (mem_updateFirst_self h)

theorem mem_updateFirst_of_npred {p : α → Bool} {f : α → α} :
    ∀ {l : List α} {y : α}, y ∈ l → ¬ p y → y ∈ updateFirst p f l
  | [], y, hy, _ => absurd hy (List.not_mem_nil y)
  | x :: xs, y, hy, hp => by
    rcases List.mem_cons.mp hy with rfl | hy'
    · simp only [updateFirst, if_neg hp]
      exact List.mem_cons_self y _
    · by_cases hx : p x
      · simp only [updateFirst, if_pos hx]
        exact List.mem_cons_of_mem _ hy'
      · simp only [updateFirst, if_neg hx]
        exact List.mem_cons_of_mem _ (mem_updateFirst_of_npred hy' hp)

theorem find?_id_of_mem :
    ∀ {l : List Order}, l.Pairwise (fun a b => a.id < b.id) →
      ∀ {x : Order}, x ∈ l → l.find? (fun o => o.id == x.id) = some x
  | [], _, x, hx => absurd hx (List.not_mem_nil x)
  | y :: ys, hp, x, hx => by
    rcases List.mem_cons.mp hx with rfl | hx'
    · rw [List.find?_cons_of_pos _ (by simp)]
    · have hlt : y.id < x.id := (List.pairwise_cons.mp hp).1 x hx'
      rw [List.find?_cons_of_neg _ (by simp; omega)]
      exact find?_id_of_mem (List.pairwise_cons.mp hp).2 hx'

theorem residualTotal_append (ts : List Trade) (t : Trade) (u : Nat)
    (c : String) :
    residualTotal (ts ++ [t]) u c = residualTotal ts u c + residualOf u c t := by
  unfold residualTotal
  simp

theorem obligations_append (l : List Order) (o : Order) (u : Nat)
    (c : String) :
    obligations (l ++ [o]) u c = obligations l u c +
      (if u = o.user_id then obligation c o else 0) := by
  unfold obligations
  simp

theorem pairwise_ids_updateFirst {p : Order → Bool} {f : Order → Order}
    (hf : ∀ x, p x → (f x).id = x.id) {l : List Order}
    (h : l.Pairwise (fun a b => a.id < b.id)) :
    (updateFirst p f l).Pairwise (fun a b => a.id < b.id) := by
  have hm : (updateFirst p f l).map Order.id = l.map Order.id :=
    map_updateFirst Order.id hf l
  have h2 : (l.map Order.id).Pairwise (· < ·) := List.pairwise_map.mpr h
  rw [← hm] at h2
  exact List.pairwise_map.mp h2

theorem obligation_fillUpd_buy {o : Order} {qty : ℚ} (hside : o.side = "BUY")
    (hopen : o.status = "OPEN") (hq : qty ≤ o.amount - o.filled_amount)
    (c : String) :
    obligation c (fillUpd o qty) = obligation c o -
      (if c = o.pair.quote_currency.toUpper then o.price * qty else 0) := by
  unfold obligation fillUpd
  split
  next hfull =>
    have ha : o.amount = o.filled_amount + qty := le_antisymm hfull (by linarith)
    by_cases hc : c = o.pair.quote_currency.toUpper <;>
      simp [hopen, hside, hc, ha] <;> ring
  next hnot =>
    by_cases hc : c = o.pair.quote_currency.toUpper <;>
      simp [hopen, hside, hc] <;> ring

theorem obligation_fillUpd_sell {o : Order} {qty : ℚ}
    (hside : o.side = "SELL") (hopen : o.status = "OPEN")
    (hq : qty ≤ o.amount - o.filled_amount) (c : String) :
    obligation c (fillUpd o qty) = obligation c o -
      (if c = o.pair.base_currency.toUpper then qty else 0) := by
  unfold obligation fillUpd
  split
  next hfull =>
    have ha : o.amount = o.filled_amount + qty := le_antisymm hfull (by linarith)
    by_cases hc : c = o.pair.base_currency.toUpper <;>
      simp [hopen, hside, hc, ha] <;> ring
  next hnot =>
    by_cases hc : c = o.pair.base_currency.toUpper <;>
      simp [hopen, hside, hc] <;> ring

theorem execute_match_obl {st : ExchangeState} {taker maker : Order}
    {qty : ℚ} {r : ExchangeState × Order × Order}
    (hexec : execute_match st taker maker qty = .ok r)
    (hids : st.orders.Pairwise (fun a b => a.id < b.id))
    (htmem : taker ∈ st.orders) (hmmem : maker ∈ st.orders)
    (hidne : taker.id ≠ maker.id)
    (hpair : maker.pair = taker.pair)
    (hsides : (taker.side = "BUY" ∧ maker.side = "SELL") ∨
      (taker.side = "SELL" ∧ maker.side = "BUY"))
    (ht_open : taker.status = "OPEN") (hm_open : maker.status = "OPEN")
    (hqt : qty ≤ taker.amount - taker.filled_amount)
    (hqm : qty ≤ maker.amount - maker.filled_amount)
    (hinv : LockedObl st) :
    LockedObl r.1 := by
  obtain ⟨st₁, st₂, h₁, h₂, hw, ho, hn, hc, ht, -, -⟩ := execute_match_ok hexec
  intro u c
  have hfT : st.orders.find? (fun o => o.id == taker.id) = some taker :=
    find?_id_of_mem hids htmem
  have hpq : ∀ x : Order, (x.id == taker.id) = true →
      ¬((x.id == maker.id) = true) := by
    intro x hx hq
    rw [beq_iff_eq] at hx hq
    exact hidne (hx ▸ hq)
  have hfeq : ∀ x : Order, (x.id == taker.id) = true →
      (((fun _ => fillUpd taker qty) x).id == maker.id) =
        ((x.id == maker.id)) := by
    intro x hx
    rw [beq_iff_eq] at hx
    show ((fillUpd taker qty).id == maker.id) = _
    rw [(fillUpd_fields taker qty).1, hx]
  have hfM : (updateFirst (fun o => o.id == taker.id)
      (fun _ => fillUpd taker qty) st.orders).find?
      (fun o => o.id == maker.id) = some maker := by
    rw [find?_updateFirst_disj hpq hfeq]
    exact find?_id_of_mem hids hmmem
  rw [lockedOf_congr hw u c, (transfer_locked_balances h₂).1 u c,
    (transfer_locked_balances h₁).1 u c, hinv u c, ho, ht,
    (transfer_locked_meta h₂).1, (transfer_locked_meta h₁).1,
    (transfer_locked_meta h₂).2.1, (transfer_locked_meta h₁).2.1,
    residualTotal_append]
  unfold obligations
  rw [sum_map_updateFirst _ hfM, sum_map_updateFirst _ hfT]
  rcases hsides with ⟨hts, hms⟩ | ⟨hts, hms⟩
  · rw [(fillUpd_fields taker qty).2.1, (fillUpd_fields maker qty).2.1,
      obligation_fillUpd_buy hts ht_open hqt c,
      obligation_fillUpd_sell hms hm_open hqm c, hpair]
    simp only [buyerOf, sellerOf, buyPriceOf, residualOf, hts, hms,
      reduceIte, ite_and]
    split_ifs <;> first
      | ring1
      | exact absurd ‹"SELL" = "BUY"› (by decide)
      | exact absurd ‹"BUY" = "SELL"› (by decide)
  · rw [(fillUpd_fields taker qty).2.1, (fillUpd_fields maker qty).2.1,
      obligation_fillUpd_sell hts ht_open hqt c,
      obligation_fillUpd_buy hms hm_open hqm c, hpair]
    simp only [buyerOf, sellerOf, buyPriceOf, residualOf, hts, hms,
      reduceIte, ite_and]
    split_ifs <;> first
      | ring1
      | exact absurd ‹"SELL" = "BUY"› (by decide)
      | exact absurd ‹"BUY" = "SELL"› (by decide)

theorem buy_ne_sell : ("BUY" : String) ≠ "SELL" := by decide

theorem sell_ne_buy : ("SELL" : String) ≠ "BUY" := by decide

theorem pairwise_id_of_map_eq {l l' : List Order}
    (hm : l'.map Order.id = l.map Order.id)
    (h : l.Pairwise (fun a b => a.id < b.id)) :
    l'.Pairwise (fun a b => a.id < b.id) := by
  have h2 : (l.map Order.id).Pairwise (· < ·) := List.pairwise_map.mpr h
  rw [← hm] at h2
  exact List.pairwise_map.mp h2

theorem ids_lt_of_map_eq {l l' : List Order} {n : Nat}
    (hm : l'.map Order.id = l.map Order.id)
    (h : ∀ o ∈ l, o.id < n) : ∀ o ∈ l', o.id < n := by
  intro o ho
  have hmem : o.id ∈ l.map Order.id := by
    rw [← hm]
    exact List.mem_map_of_mem _ ho
  obtain ⟨x, hx, hxe⟩ := List.mem_map.mp hmem
  rw [← hxe]
  exact h x hx

theorem execute_match_meta {st : ExchangeState} {taker maker : Order}
    {qty : ℚ} {r : ExchangeState × Order × Order}
    (hexec : execute_match st taker maker qty = .ok r) :
    r.1.orders.map Order.id = st.orders.map Order.id ∧
    r.1.next_order_id = st.next_order_id := by
  obtain ⟨st₁, st₂, h₁, h₂, -, ho, hn, -, -, -, -⟩ := execute_match_ok hexec
  constructor
  · rw [ho, (transfer_locked_meta h₂).1, (transfer_locked_meta h₁).1,
      map_updateFirst Order.id (fun x hx => by
        show (fillUpd maker qty).id = x.id
        rw [(fillUpd_fields maker qty).1]
        exact (beq_iff_eq.mp hx).symm),
      map_updateFirst Order.id (fun x hx => by
        show (fillUpd taker qty).id = x.id
        rw [(fillUpd_fields taker qty).1]
        exact (beq_iff_eq.mp hx).symm)]
  · rw [hn, (transfer_locked_meta h₂).2.2.1, (transfer_locked_meta h₁).2.2.1]

theorem execute_match_orders_pres {st : ExchangeState} {taker maker : Order}
    {qty : ℚ} {r : ExchangeState × Order × Order} {P : Order → Prop}
    (hexec : execute_match st taker maker qty = .ok r)
    (hP : ∀ o q, P o → P (fillUpd o q))
    (hall : ∀ o ∈ st.orders, P o) (htk : P taker) (hmk : P maker) :
    ∀ o ∈ r.1.orders, P o := by
  obtain ⟨st₁, st₂, h₁, h₂, -, ho, -, -, -, -, -⟩ := execute_match_ok hexec
  intro y hy
  rw [ho, (transfer_locked_meta h₂).1, (transfer_locked_meta h₁).1] at hy
  rcases mem_updateFirst y hy with hy' | ⟨x, hx, -, hyx⟩
  · rcases mem_updateFirst y hy' with hy'' | ⟨x, hx, -, hyx⟩
    · exact hall y hy''
    · rw [hyx]
      exact hP _ _ htk
  · rw [hyx]
    exact hP _ _ hmk

theorem match_loop_meta :
    ∀ {ms : List Order} {st : ExchangeState} {taker : Order} {n : Nat}
      {r : ExchangeState × Order × Nat},
      match_loop st taker ms n = .ok r →
      r.1.orders.map Order.id = st.orders.map Order.id ∧
      r.1.next_order_id = st.next_order_id
  | [], st, taker, n, r, h => by
    unfold match_loop at h
    injection h with h
    rw [← h]
    exact ⟨rfl, rfl⟩
  | maker :: rest, st, taker, n, r, h => by
    unfold match_loop at h
    dsimp only at h
    split at h
    · injection h with h
      rw [← h]
      exact ⟨rfl, rfl⟩
    · split at h
      · exact absurd h (by simp)
      next r' hexec =>
        have ih := match_loop_meta h
        have hm := execute_match_meta hexec
        exact ⟨ih.1.trans hm.1, ih.2.trans hm.2⟩

theorem match_loop_orders_pres {P : Order → Prop}
    (hP : ∀ o q, P o → P (fillUpd o q)) :
    ∀ {ms : List Order} {st : ExchangeState} {taker : Order} {n : Nat}
      {r : ExchangeState × Order × Nat},
      match_loop st taker ms n = .ok r → (∀ o ∈ st.orders, P o) → P taker →
      (∀ m ∈ ms, P m) → ∀ o ∈ r.1.orders, P o
  | [], st, taker, n, r, h, hall, htk, hms => by
    unfold match_loop at h
    injection h with h
    rw [← h]
    exact hall
  | maker :: rest, st, taker, n, r, h, hall, htk, hms => by
    unfold match_loop at h
    dsimp only at h
    split at h
    · injection h with h
      rw [← h]
      exact hall
    · split at h
      · exact absurd h (by simp)
      next r' hexec =>
        obtain ⟨-, -, -, -, -, -, -, -, -, ht₂, -⟩ := execute_match_ok hexec
        refine match_loop_orders_pres hP h
          (execute_match_orders_pres hexec hP hall htk
            (hms maker (List.mem_cons_self maker rest)))
          ?_ (fun m hm => hms m (List.mem_cons_of_mem maker hm))
        rw [ht₂]
        exact hP _ _ htk

theorem match_loop_obl :
    ∀ {ms : List Order} {st : ExchangeState} {taker : Order} {n : Nat}
      {r : ExchangeState × Order × Nat},
      match_loop st taker ms n = .ok r →
      st.orders.Pairwise (fun a b => a.id < b.id) →
      taker ∈ st.orders →
      (taker.status = "OPEN" ∨ taker.amount ≤ taker.filled_amount) →
      (∀ m ∈ ms, m ∈ st.orders ∧ m.pair = taker.pair ∧ m.status = "OPEN" ∧
        m.id ≠ taker.id ∧
        ((taker.side = "BUY" ∧ m.side = "SELL") ∨
         (taker.side = "SELL" ∧ m.side = "BUY"))) →
      ms.Pairwise (fun a b => a.id ≠ b.id) →
      LockedObl st → LockedObl r.1
  | [], st, taker, n, r, h, _, _, _, _, _, hinv => by
    unfold match_loop at h
    injection h with h
    rw [← h]
    exact hinv
  | maker :: rest, st, taker, n, r, h, hids, htmem, htst, hms, hne, hinv => by
    unfold match_loop at h
    dsimp only at h
    split at h
    · injection h with h
      rw [← h]
      exact hinv
    next hrem =>
      split at h
      · exact absurd h (by simp)
      next r' hexec =>
        have hf := hms maker (List.mem_cons_self maker rest)
        have ht_open : taker.status = "OPEN" := by
          rcases htst with h' | h'
          · exact h'
          · exact absurd (by linarith : taker.amount - taker.filled_amount ≤ 0)
              hrem
        have hinv' : LockedObl r'.1 :=
          execute_match_obl hexec hids htmem hf.1 (Ne.symm hf.2.2.2.1)
            hf.2.1 hf.2.2.2.2 ht_open hf.2.2.1 (min_le_left _ _)
            (min_le_right _ _) hinv
        obtain ⟨st₁, st₂, h₁, h₂, -, ho, -, -, -, ht₂, -⟩ :=
          execute_match_ok hexec
        set q : ℚ := (taker.amount - taker.filled_amount) ⊓
          (maker.amount - maker.filled_amount) with hqdef
        have hord : r'.1.orders = updateFirst (fun o => o.id == maker.id)
            (fun _ => fillUpd maker q)
            (updateFirst (fun o => o.id == taker.id)
              (fun _ => fillUpd taker q) st.orders) := by
          rw [ho, (transfer_locked_meta h₂).1, (transfer_locked_meta h₁).1]
        have hids' : r'.1.orders.Pairwise (fun a b => a.id < b.id) :=
          pairwise_id_of_map_eq (execute_match_meta hexec).1 hids
        have hfT : st.orders.find? (fun o => o.id == taker.id) = some taker :=
          find?_id_of_mem hids htmem
        have htmem' : r'.2.1 ∈ r'.1.orders := by
          rw [ht₂, hord]
          refine mem_updateFirst_of_npred (mem_updateFirst_self hfT) ?_
          show ¬((fillUpd taker q).id == maker.id) = true
          rw [(fillUpd_fields taker q).1, beq_iff_eq]
          exact Ne.symm hf.2.2.2.1
        have htst' : r'.2.1.status = "OPEN" ∨
            r'.2.1.amount ≤ r'.2.1.filled_amount := by
          rw [ht₂]
          unfold fillUpd
          split
          next hfull =>
            right
            dsimp
            linarith
          next hnot =>
            left
            dsimp
            exact ht_open
        have hms' : ∀ m ∈ rest, m ∈ r'.1.orders ∧ m.pair = r'.2.1.pair ∧
            m.status = "OPEN" ∧ m.id ≠ r'.2.1.id ∧
            ((r'.2.1.side = "BUY" ∧ m.side = "SELL") ∨
             (r'.2.1.side = "SELL" ∧ m.side = "BUY")) := by
          intro m hm
          have hfm := hms m (List.mem_cons_of_mem maker hm)
          refine ⟨?_, ?_, hfm.2.2.1, ?_, ?_⟩
          · rw [hord]
            refine mem_updateFirst_of_npred
              (mem_updateFirst_of_npred hfm.1 ?_) ?_
            · show ¬(m.id == taker.id) = true
              rw [beq_iff_eq]
              exact hfm.2.2.2.1
            · show ¬(m.id == maker.id) = true
              rw [beq_iff_eq]
              exact fun he => (List.pairwise_cons.mp hne).1 m hm he.symm
          · rw [ht₂, (fillUpd_fields taker q).2.2.1]
            exact hfm.2.1
          · rw [ht₂, (fillUpd_fields taker q).1]
            exact hfm.2.2.2.1
          · rw [ht₂, (fillUpd_fields taker q).2.2.2.1]
            exact hfm.2.2.2.2
        exact match_loop_obl h hids' htmem' htst' hms'
          (List.pairwise_cons.mp hne).2 hinv'

theorem obligation_buy_new (c : String) (i uu : Nat) (pr : TradingPair)
    (ot : String) (price amount : ℚ) (t : Nat) :
    obligation c ⟨i, uu, pr, "BUY", ot, price, amount, 0, "OPEN", t⟩ =
      if c = pr.quote_currency.toUpper then price * amount else 0 := by
  unfold obligation
  dsimp only
  rw [if_pos rfl]
  by_cases hc : c = pr.quote_currency.toUpper
  · rw [if_pos ⟨rfl, hc⟩, if_neg (fun hcn => buy_ne_sell hcn.1), add_zero,
      sub_zero, if_pos hc]
  · rw [if_neg (fun hcn => hc hcn.2), if_neg (fun hcn => buy_ne_sell hcn.1),
      add_zero, if_neg hc]

theorem obligation_sell_new (c : String) (i uu : Nat) (pr : TradingPair)
    (ot : String) (price amount : ℚ) (t : Nat) :
    obligation c ⟨i, uu, pr, "SELL", ot, price, amount, 0, "OPEN", t⟩ =
      if c = pr.base_currency.toUpper then amount else 0 := by
  unfold obligation
  dsimp only
  rw [if_pos rfl]
  by_cases hc : c = pr.base_currency.toUpper
  · rw [if_neg (fun hcn => sell_ne_buy hcn.1), if_pos ⟨rfl, hc⟩, zero_add,
      sub_zero, if_pos hc]
  · rw [if_neg (fun hcn => sell_ne_buy hcn.1), if_neg (fun hcn => hc hcn.2),
      zero_add, if_neg hc]

theorem fillUpd_wf (o : Order) (q : ℚ) :
    ((fillUpd o q).status = "OPEN" →
      (fillUpd o q).filled_amount ≤ (fillUpd o q).amount) ∧
    (fillUpd o q).side = o.side := by
  constructor
  · unfold fillUpd
    split
    next hfull =>
      intro hop
      dsimp at hop
      exact absurd hop (by decide)
    next hnot =>
      intro hop
      dsimp
      exact le_of_lt (not_le.mp hnot)
  · exact (fillUpd_fields o q).2.2.2.1

theorem find_matches_pairwise_ne {st : ExchangeState} {o : Order}
    (h : st.orders.Pairwise (fun a b => a.id < b.id)) :
    (find_matches st o).Pairwise (fun a b => a.id ≠ b.id) := by
  have hne : st.orders.Pairwise (fun a b => a.id ≠ b.id) :=
    h.imp fun hlt => Nat.ne_of_lt hlt
  unfold find_matches
  dsimp only
  split
  · exact ((List.perm_insertionSort buyLe _).pairwise_iff
      (fun hab => Ne.symm hab)).mpr ((hne.filter _).filter _)
  · exact ((List.perm_insertionSort sellLe _).pairwise_iff
      (fun hab => Ne.symm hab)).mpr ((hne.filter _).filter _)

theorem place_order_obl {st : ExchangeState} {u : Nat} {pair : TradingPair}
    {side order_type : String} {price amount : ℚ} {r : ExchangeState × Order}
    (h : place_order st u pair side order_type price amount = .ok r)
    (hwf : OrdersWF st)
    (hcoh : ∀ o ∈ st.orders, o.pair.symbol = pair.symbol → o.pair = pair)
    (hinv : LockedObl st) : LockedObl r.1 ∧ OrdersWF r.1 := by
  unfold place_order at h
  dsimp only at h
  split at h
  · exact absurd h (by simp)
  next hval =>
    split at h
    · exact absurd h (by simp)
    next locked hlock =>
      split at h
      · exact absurd h (by simp)
      next r' hmatch =>
        injection h with h
        obtain ⟨stL, wL⟩ := locked
        obtain ⟨-, hside, -, -, hamt⟩ := validate_ok_facts hval
        have hL : stL.orders = st.orders ∧ stL.trades = st.trades ∧
            stL.next_order_id = st.next_order_id ∧ stL.clock = st.clock ∧
            (∀ u' c', lockedOf stL u' c' = lockedOf st u' c' +
              (if u' = u then obligation c'
                ⟨stL.next_order_id, u, pair, side, order_type, price, amount,
                  0, "OPEN", stL.clock⟩ else 0)) := by
          rcases hside with hs | hs <;> rw [hs] at hlock ⊢
          · rw [if_pos rfl] at hlock
            obtain ⟨-, w, -, -, hst⟩ := lock_balance_ok hlock
            refine ⟨by rw [hst]; rfl, by rw [hst]; rfl, by rw [hst]; rfl,
              by rw [hst]; rfl, ?_⟩
            intro u' c'
            rw [(lock_balance_balances hlock).2.2.1 u' c',
              obligation_buy_new, ite_and]
          · rw [if_neg sell_ne_buy] at hlock
            obtain ⟨-, w, -, -, hst⟩ := lock_balance_ok hlock
            refine ⟨by rw [hst]; rfl, by rw [hst]; rfl, by rw [hst]; rfl,
              by rw [hst]; rfl, ?_⟩
            intro u' c'
            rw [(lock_balance_balances hlock).2.2.1 u' c',
              obligation_sell_new, ite_and]
        have hidsI : (stL.orders ++ [(⟨stL.next_order_id, u, pair, side,
            order_type, price, amount, 0, "OPEN", stL.clock⟩ : Order)]).Pairwise
            (fun a b => a.id < b.id) := by
          rw [List.pairwise_append]
          refine ⟨by rw [hL.1]; exact hwf.1,
            List.pairwise_singleton _ _, ?_⟩
          intro a ha b hb
          rw [List.mem_singleton.mp hb]
          show a.id < stL.next_order_id
          rw [hL.2.2.1]
          exact hwf.2.1 a (hL.1 ▸ ha)
        have hallI : ∀ o ∈ (stL.orders ++ [(⟨stL.next_order_id, u, pair, side,
            order_type, price, amount, 0, "OPEN", stL.clock⟩ : Order)]),
            (o.status = "OPEN" → o.filled_amount ≤ o.amount) ∧
            (o.side = "BUY" ∨ o.side = "SELL") := by
          intro o ho
          rcases List.mem_append.mp ho with ho' | ho'
          · have hos := hL.1 ▸ ho'
            exact ⟨hwf.2.2.1 o hos, hwf.2.2.2 o hos⟩
          · rw [List.mem_singleton.mp ho']
            refine ⟨fun _ => ?_, hside⟩
            show (0 : ℚ) ≤ amount
            exact le_of_lt hamt
        have hmakers : ∀ m ∈ find_matches
            { stL with
              orders := stL.orders ++ [⟨stL.next_order_id, u, pair, side,
                order_type, price, amount, 0, "OPEN", stL.clock⟩],
              next_order_id := stL.next_order_id + 1,
              clock := stL.clock + 1 }
            (⟨stL.next_order_id, u, pair, side, order_type, price, amount, 0,
              "OPEN", stL.clock⟩ : Order),
            m ∈ (stL.orders ++ [(⟨stL.next_order_id, u, pair, side, order_type,
              price, amount, 0, "OPEN", stL.clock⟩ : Order)]) ∧ m.pair = pair ∧
            m.status = "OPEN" ∧ m.id ≠ stL.next_order_id ∧
            ((side = "BUY" ∧ m.side = "SELL") ∨
             (side = "SELL" ∧ m.side = "BUY")) := by
          intro m hm
          have hmf := mem_find_matches hm
          have hms2 : m.side = if side = "BUY" then "SELL" else "BUY" :=
            hmf.2.2.1
          have hmSt : m ∈ st.orders := by
            rcases List.mem_append.mp (show m ∈ stL.orders ++
                [(⟨stL.next_order_id, u, pair, side, order_type, price, amount,
                  0, "OPEN", stL.clock⟩ : Order)] from hmf.1) with hm' | hm'
            · rw [← hL.1]
              exact hm'
            · exfalso
              rw [List.mem_singleton.mp hm'] at hms2
              have hOside : side = if side = "BUY" then "SELL" else "BUY" :=
                hms2
              rcases hside with hs | hs <;> rw [hs] at hOside
              · rw [if_pos rfl] at hOside
                exact buy_ne_sell hOside
              · rw [if_neg sell_ne_buy] at hOside
                exact sell_ne_buy hOside
          refine ⟨hmf.1, hcoh m hmSt hmf.2.1, hmf.2.2.2.1, ?_, ?_⟩
          · rw [hL.2.2.1]
            exact Nat.ne_of_lt (hwf.2.1 m hmSt)
          · rcases hside with hs | hs
            · refine Or.inl ⟨hs, ?_⟩
              rw [hs, if_pos rfl] at hms2
              exact hms2
            · refine Or.inr ⟨hs, ?_⟩
              rw [hs, if_neg sell_ne_buy] at hms2
              exact hms2
        have hmapid := (match_loop_meta hmatch).1
        have hnextR := (match_loop_meta hmatch).2
        have hinvR : LockedObl r'.1 := by
          refine match_loop_obl hmatch hidsI
            (List.mem_append_right _ (List.mem_singleton_self _))
            (Or.inl rfl) hmakers (find_matches_pairwise_ne hidsI) ?_
          intro u' c'
          show lockedOf stL u' c' = obligations (stL.orders ++
            [(⟨stL.next_order_id, u, pair, side, order_type, price, amount, 0,
              "OPEN", stL.clock⟩ : Order)]) u' c' + residualTotal stL.trades u' c'
          rw [obligations_append,
            (show (⟨stL.next_order_id, u, pair, side, order_type, price,
              amount, 0, "OPEN", stL.clock⟩ : Order).user_id = u from rfl),
            hL.1, hL.2.1, hL.2.2.2.2 u' c', hinv u' c']
          ring
        have hPres : ∀ o ∈ r'.1.orders,
            (o.status = "OPEN" → o.filled_amount ≤ o.amount) ∧
            (o.side = "BUY" ∨ o.side = "SELL") := by
          refine match_loop_orders_pres ?_ hmatch hallI
            ⟨fun _ => le_of_lt hamt, hside⟩ ?_
          · intro o q hP
            refine ⟨(fillUpd_wf o q).1, ?_⟩
            rw [(fillUpd_wf o q).2]
            exact hP.2
          · intro m hm
            exact hallI m (mem_find_matches hm).1
        have hwfR : OrdersWF r'.1 := by
          refine ⟨pairwise_id_of_map_eq hmapid hidsI, ?_, ?_, ?_⟩
          · have hlt : ∀ o ∈ (stL.orders ++ [(⟨stL.next_order_id, u, pair,
                side, order_type, price, amount, 0, "OPEN", stL.clock⟩ : Order)]),
                o.id < stL.next_order_id + 1 := by
              intro o ho
              rcases List.mem_append.mp ho with ho' | ho'
              · have h2 := hwf.2.1 o (hL.1 ▸ ho')
                rw [← hL.2.2.1] at h2
                omega
              · rw [List.mem_singleton.mp ho']
                show stL.next_order_id < stL.next_order_id + 1
                omega
            intro o ho
            rw [hnextR]
            show o.id < stL.next_order_id + 1
            exact ids_lt_of_map_eq hmapid hlt o ho
          · intro o ho
            exact (hPres o ho).1
          · intro o ho
            exact (hPres o ho).2
        rw [← h]
        exact ⟨hinvR, hwfR⟩

theorem obligation_cancelled (order : Order) (c : String) :
    obligation c { order with status := "CANCELLED" } = 0 := by
  unfold obligation
  dsimp only
  rw [if_neg (by decide)]

theorem obligation_cancel (order : Order) (hopen : order.status = "OPEN")
    (hside : order.side = "BUY" ∨ order.side = "SELL") (c : String) :
    obligation c order =
      if c = (cancelCur order).toUpper then cancelAmt order else 0 := by
  unfold obligation cancelCur cancelAmt
  rcases hside with hs | hs
  · simp only [hopen, hs, eq_self_iff_true, true_and, if_true, ite_true,
      buy_ne_sell, false_and, if_false, ite_false, add_zero]
  · simp only [hopen, hs, sell_ne_buy, false_and, if_false, ite_false,
      eq_self_iff_true, true_and, if_true, ite_true, zero_add]

theorem obligations_setCancelled (u : Nat) (c : String) {l : List Order}
    {p : Order → Bool} {order : Order} (new : Order)
    (hfind : l.find? p = some order) :
    obligations (updateFirst p (fun _ => new) l) u c =
      obligations l u c +
        ((if u = new.user_id then obligation c new else 0) -
         (if u = order.user_id then obligation c order else 0)) := by
  unfold obligations
  exact sum_map_updateFirst _ hfind

theorem cancel_order_obl {st : ExchangeState} {u oid : Nat}
    {r : ExchangeState × Order}
    (h : cancel_order st u oid = .ok r)
    (hwf : OrdersWF st) (hstat : StatusInv st) (hinv : LockedObl st) :
    LockedObl r.1 ∧ OrdersWF r.1 := by
  unfold cancel_order at h
  dsimp only at h
  split at h
  · exact absurd h (by simp)
  next order hfind =>
    split at h
    · exact absurd h (by simp)
    next howner =>
      split at h
      · exact absurd h (by simp)
      next hstpo =>
        split at h
        · exact absurd h (by simp)
        next st₁ hstep =>
          injection h with h
          have horder_mem : order ∈ st.orders :=
            List.mem_of_find?_eq_some hfind
          have horder_id : order.id = oid := by
            have hp := List.find?_some hfind
            exact beq_iff_eq.mp hp
          have hu : order.user_id = u := not_not.mp howner
          have hopen : order.status = "OPEN" := by
            rcases not_not.mp hstpo with hp | hp
            · rcases hstat order horder_mem with hs | hs | hs <;>
                exact absurd (hp.symm.trans hs) (by decide)
            · exact hp
          have hfill : order.filled_amount ≤ order.amount :=
            hwf.2.2.1 order horder_mem hopen
          have hsides : order.side = "BUY" ∨ order.side = "SELL" :=
            hwf.2.2.2 order horder_mem
          have hS : st₁.orders = st.orders ∧ st₁.trades = st.trades ∧
              st₁.next_order_id = st.next_order_id ∧
              (∀ u' c', lockedOf st₁ u' c' = lockedOf st u' c' -
                (if u' = u then obligation c' order else 0)) := by
            rw [unlock_branch_eq order st u] at hstep
            split at hstep
            next hunf =>
              split at hstep
              · exact absurd hstep (by simp)
              next r₁ hunlock =>
                obtain ⟨stU, wU⟩ := r₁
                injection hstep with hstep
                subst hstep
                obtain ⟨-, w2, -, -, hst1⟩ := unlock_balance_ok hunlock
                refine ⟨by rw [hst1]; rfl, by rw [hst1]; rfl,
                  by rw [hst1]; rfl, ?_⟩
                intro u' c'
                have hb := (unlock_balance_balances hunlock).2.2.1 u' c'
                show lockedOf stU u' c' = lockedOf st u' c' -
                  (if u' = u then obligation c' order else 0)
                rw [hb, obligation_cancel order hopen hsides c', ite_and]
            next hunf =>
              injection hstep with hstep
              subst hstep
              refine ⟨rfl, rfl, rfl, ?_⟩
              intro u' c'
              have hz : obligation c' order = 0 := by
                rw [obligation_cancel order hopen hsides c']
                have hca : cancelAmt order = 0 := by
                  have h0 : order.amount - order.filled_amount = 0 := by
                    have h1 := not_lt.mp hunf
                    linarith
                  unfold cancelAmt
                  rw [h0]
                  split <;> ring
                rw [hca, ite_self]
              rw [hz, ite_self, sub_zero]
          have hfind₁ : st₁.orders.find? (fun o => o.id == oid) = some order := by
            rw [hS.1]
            exact hfind
          constructor
          · rw [← h]
            intro u' c'
            show lockedOf st₁ u' c' =
              obligations (updateFirst (fun o => o.id == oid)
                (fun _ => { order with status := "CANCELLED" })
                st₁.orders) u' c' + residualTotal st₁.trades u' c'
            rw [obligations_setCancelled u' c' _ hfind₁, obligation_cancelled,
              ite_self, hS.1, hS.2.1, hS.2.2.2 u' c', hinv u' c', hu]
            ring
          · rw [← h]
            have hmapid : (updateFirst (fun o => o.id == oid)
                (fun _ => { order with status := "CANCELLED" })
                st₁.orders).map Order.id = st.orders.map Order.id := by
              rw [hS.1]
              apply map_updateFirst
              intro x hx
              show order.id = x.id
              rw [horder_id]
              exact (beq_iff_eq.mp hx).symm
            refine ⟨?_, ?_, ?_, ?_⟩
            · exact pairwise_id_of_map_eq hmapid hwf.1
            · intro o ho
              show o.id < st₁.next_order_id
              rw [hS.2.2.1]
              exact ids_lt_of_map_eq hmapid hwf.2.1 o ho
            · intro o ho
              rcases mem_updateFirst o ho with ho' | ⟨x, -, -, hox⟩
              · rw [hS.1] at ho'
                exact hwf.2.2.1 o ho'
              · rw [hox]
                intro hop
                dsimp at hop
                exact absurd hop (by decide)
            · intro o ho
              rcases mem_updateFirst o ho with ho' | ⟨x, -, -, hox⟩
              · rw [hS.1] at ho'
                exact hwf.2.2.2 o ho'
              · rw [hox]
                show order.side = "BUY" ∨ order.side = "SELL"
                exact hsides

theorem LockedObl_of_nil {st : ExchangeState}
    (ho : st.orders = []) (ht : st.trades = [])
    (hw : ∀ w ∈ st.wallets, w.locked_balance = 0) : LockedObl st := by
  intro u c
  rw [ho, ht]
  show lockedOf st u c = 0 + 0
  rw [add_zero]
  unfold lockedOf
  cases hf : st.wallets.find? (walletKey u c) with
  | none => rfl
  | some w =>
    have hm := List.mem_of_find?_eq_some hf
    show w.locked_balance = 0
    exact hw w hm

/-- **C3** (amended): after every committed `place_order` or `cancel_order`,
each wallet's `locked_balance` equals the user's open obligations in that
currency **plus** the accumulated price-improvement residual of their BUY
fills — the original equality (locked = obligations alone) fails whenever a
BUY taker fills strictly below its limit price, because `execute_match`
settles at the maker price but never refunds the difference out of the
taker's lock (see the counterexample).  `place_order` additionally requires
that the stored orders of the same symbol carry the same pair row, as in the
source's foreign-key schema. -/
theorem C3_locked_obligations :
    (∀ (st : ExchangeState) (u : Nat) (pair : TradingPair)
      (side order_type : String) (price amount : ℚ),
      ExchangeInv st →
      (∀ o ∈ st.orders, o.pair.symbol = pair.symbol → o.pair = pair) →
      ExchangeInv (run_place_order st u pair side order_type price amount).1) ∧
    (∀ (st : ExchangeState) (u oid : Nat),
      ExchangeInv st → ExchangeInv (run_cancel_order st u oid).1) := by
  constructor
  · intro st u pair side order_type price amount hinv hcoh
    unfold run_place_order
    cases hp : place_order st u pair side order_type price amount with
    | error e => exact hinv
    | ok r =>
      obtain ⟨st', o⟩ := r
      have hob := place_order_obl hp hinv.1 hcoh hinv.2.2
      exact ⟨hob.2, place_order_status hp hinv.2.1, hob.1⟩
  · intro st u oid hinv
    unfold run_cancel_order
    cases hc : cancel_order st u oid with
    | error e => exact hinv
    | ok r =>
      obtain ⟨st', o⟩ := r
      have hob := cancel_order_obl hc hinv.1 hinv.2.1 hinv.2.2
      exact ⟨hob.2, cancel_order_status hc hinv.2.1, hob.1⟩

theorem C3_locked_obligations_witness :
    ExchangeInv (run_place_order stqInit 2 PW "SELL" "LIMIT" 20 1).1 ∧
    ExchangeInv (run_cancel_order stqInit 2 1).1 := by
  have hinv : ExchangeInv stqInit := by
    refine ⟨⟨List.Pairwise.nil, fun o ho => absurd ho (List.not_mem_nil o),
      fun o ho => absurd ho (List.not_mem_nil o),
      fun o ho => absurd ho (List.not_mem_nil o)⟩,
      fun o ho => absurd ho (List.not_mem_nil o), ?_⟩
    refine LockedObl_of_nil rfl rfl ?_
    intro w hw
    rcases List.mem_cons.mp hw with rfl | hw'
    · rfl
    rcases List.mem_cons.mp hw' with rfl | hw''
    · rfl
    exact absurd hw'' (List.not_mem_nil w)
  exact ⟨C3_locked_obligations.1 stqInit 2 PW "SELL" "LIMIT" 20 1 hinv
      (fun o ho _ => absurd ho (List.not_mem_nil o)),
    C3_locked_obligations.2 stqInit 2 1 hinv⟩
